import Mathlib

/-!
Job application form: validation engine and form state.

A shallow embedding of `src/components/JobApplicationForm.jsx`.

* JavaScript strings are Lean `String`s; the matchers work on their list of
  characters.  Every character class used by the component is a set of BMP
  characters below U+0080 or the complement of the white-space set, so matching
  per Unicode scalar value and per UTF-16 code unit agree.
* A JavaScript regular expression is a value of `RE`; `RegExp.prototype.test`
  is `RE.test` (no anchors) or `RE.matchAll` (pattern written between `^` and
  `$`, no `m` flag).
* React state is passed explicitly: every handler maps the state it closes
  over to the state it sets.
-/

namespace JobApp

/-! ## Regular expressions -/

/-- Regular expressions over characters, with character classes as predicates. -/
inductive RE where
  | empty : RE
  | eps : RE
  | cls : (Char → Bool) → RE
  | seq : RE → RE → RE
  | alt : RE → RE → RE
  | star : RE → RE

namespace RE

/-- Does the expression accept the empty input? -/
def nullable : RE → Bool
  | empty => false
  | eps => true
  | cls _ => false
  | seq a b => a.nullable && b.nullable
  | alt a b => a.nullable || b.nullable
  | star _ => true

/-- Derivative of an expression with respect to one input character. -/
def deriv : RE → Char → RE
  | empty, _ => empty
  | eps, _ => empty
  | cls p, c => if p c then eps else empty
  | seq a b, c =>
      if a.nullable then alt (seq (a.deriv c) b) (b.deriv c) else seq (a.deriv c) b
  | alt a b, c => alt (a.deriv c) (b.deriv c)
  | star a, c => seq (a.deriv c) (star a)

/-- Whole-input match: the test of a pattern written `^r$`. -/
def matchAll : RE → List Char → Bool
  | r, [] => r.nullable
  | r, c :: cs => (r.deriv c).matchAll cs

/-- Some initial segment of the input matches: one attempt of the matcher at
the current start index. -/
def matchStart : RE → List Char → Bool
  | r, [] => r.nullable
  | r, c :: cs => r.nullable || (r.deriv c).matchStart cs

/-- Unanchored `test`: the matcher is tried at every start index in turn. -/
def test (r : RE) : List Char → Bool
  | [] => r.matchStart []
  | c :: cs => r.matchStart (c :: cs) || r.test cs

/-- The quantifier `r?`. -/
def opt (r : RE) : RE := alt r eps

/-- The quantifier `r+`. -/
def plus (r : RE) : RE := seq r (star r)

/-- The quantifier `r{n}`. -/
def rep : Nat → RE → RE
  | 0, _ => eps
  | n + 1, r => seq r (rep n r)

/-- The quantifier `r{n,}`. -/
def atLeast (n : Nat) (r : RE) : RE := seq (rep n r) (star r)

/-- The quantifier `r{0,n}`. -/
def upTo : Nat → RE → RE
  | 0, _ => eps
  | n + 1, r => opt (seq r (upTo n r))

/-- The quantifier `r{m,m+k}`. -/
def between (m k : Nat) (r : RE) : RE := seq (rep m r) (upTo k r)

/-- A single literal character. -/
def chr (c : Char) : RE := cls (fun x => x == c)

/-- The words an expression denotes. -/
inductive Matches : RE → List Char → Prop
  | eps : Matches eps []
  | cls (p : Char → Bool) (c : Char) : p c = true → Matches (cls p) [c]
  | seq (a b : RE) (u v : List Char) :
      Matches a u → Matches b v → Matches (seq a b) (u ++ v)
  | altL (a b : RE) (u : List Char) : Matches a u → Matches (alt a b) u
  | altR (a b : RE) (u : List Char) : Matches b u → Matches (alt a b) u
  | starNil (a : RE) : Matches (star a) []
  | starCons (a : RE) (u v : List Char) :
      Matches a u → Matches (star a) v → Matches (star a) (u ++ v)

end RE

/-! ## Strings: white space, trimming, conversion to a number -/

/-- The code points of `WhiteSpace` (TAB, VT, FF, ZWNBSP and the space
separators) and of `LineTerminator` (LF, CR, LS, PS). -/
def whiteSpaceCodes : List Nat :=
  [9, 10, 11, 12, 13, 32, 160, 5760, 8192, 8193, 8194, 8195, 8196, 8197, 8198, 8199,
   8200, 8201, 8202, 8232, 8233, 8239, 8287, 12288, 65279]

/-- What `trim` strips and what the class `\s` accepts. -/
def isWhiteSpace (c : Char) : Bool := whiteSpaceCodes.contains c.toNat

/-- The method `String.prototype.trim` on the list of characters. -/
def trimChars (s : List Char) : List Char :=
  ((s.dropWhile isWhiteSpace).reverse.dropWhile isWhiteSpace).reverse

/-- The call `s.trim()`. -/
def trim (s : String) : String := ⟨trimChars s.data⟩

/-- Truthiness of a string: only the empty string is falsy. -/
def truthy (s : String) : Bool := !s.data.isEmpty

/-- The class `\d`, that is `[0-9]`. -/
def isDigit (c : Char) : Bool := 48 ≤ c.toNat && c.toNat ≤ 57

/-- Value of a digit in a base up to 16, `none` when the character is no digit
of that base. -/
def digitValue (base : Nat) (c : Char) : Option Nat :=
  let n := c.toNat
  let v := if 48 ≤ n && n ≤ 57 then some (n - 48)
    else if 97 ≤ n && n ≤ 102 then some (n - 87)
    else if 65 ≤ n && n ≤ 70 then some (n - 55)
    else none
  match v with
  | some d => if d < base then some d else none
  | none => none

/-- Value of a non-empty run of digits in the given base. -/
def digitsValue (base : Nat) : List Char → Option Nat
  | [] => none
  | ds => ds.foldl
      (fun acc c => match acc, digitValue base c with
        | some n, some d => some (base * n + d)
        | _, _ => none)
      (some 0)

/-- What a comparison with `0` observes of a Number value. -/
inductive JSNumber where
  | nan
  | negative
  | zero
  | positive
  deriving DecidableEq, Repr

/-- The comparison `x <= 0` for a Number `x`: false for NaN. -/
def JSNumber.leZero : JSNumber → Bool
  | .negative => true
  | .zero => true
  | _ => false

/-- The production `NonDecimalIntegerLiteral`: `0b`, `0o`, `0x` literals (no sign). -/
def parseNonDecimal : List Char → Option Nat
  | '0' :: x :: ds =>
      if x == 'b' || x == 'B' then digitsValue 2 ds
      else if x == 'o' || x == 'O' then digitsValue 8 ds
      else if x == 'x' || x == 'X' then digitsValue 16 ds
      else none
  | _ => none

/-- The production `ExponentPart`, optional: the exponent, `none` when the rest of the literal
is not an exponent part. -/
def parseExponent : List Char → Option Int
  | [] => some 0
  | e :: rest =>
      if e == 'e' || e == 'E' then
        match rest with
        | '+' :: ds => (digitsValue 10 ds).map Int.ofNat
        | '-' :: ds => (digitsValue 10 ds).map (fun n => - Int.ofNat n)
        | ds => (digitsValue 10 ds).map Int.ofNat
      else none

/-- The production `StrUnsignedDecimalLiteral` other than `Infinity`: the literal denotes
`mantissa * 10 ^ exponent`. -/
def parseUnsignedDecimal (s : List Char) : Option (Nat × Int) :=
  let ip := s.takeWhile isDigit
  let r1 := s.dropWhile isDigit
  let fp := match r1 with
    | '.' :: t => t.takeWhile isDigit
    | _ => []
  let r2 := match r1 with
    | '.' :: t => t.dropWhile isDigit
    | _ => r1
  if ip.isEmpty && fp.isEmpty then none
  else
    match parseExponent r2 with
    | none => none
    | some e => some ((digitsValue 10 (ip ++ fp)).getD 0, e - Int.ofNat fp.length)

/-- Does `m * 10 ^ e` round to zero as a double?  It does when `m = 0`, and when
the value is at most `2 ^ (-1075)`, half the least positive double (the tie
goes to the even neighbour, which is zero). -/
def roundsToZero (m : Nat) (e : Int) : Bool :=
  m == 0 || (decide (e < 0) && decide (m * 2 ^ 1075 ≤ 10 ^ e.natAbs))

/-- The operation `ToNumber` applied to a string (`StringToNumber`), up to `JSNumber`. -/
def stringToNumber (s : String) : JSNumber :=
  let t := trimChars s.data
  if t.isEmpty then .zero
  else
    match parseNonDecimal t with
    | some n => if n == 0 then .zero else .positive
    | none =>
      let neg := match t with
        | '-' :: _ => true
        | _ => false
      let u := match t with
        | '+' :: r => r
        | '-' :: r => r
        | _ => t
      if u == "Infinity".data then (if neg then .negative else .positive)
      else
        match parseUnsignedDecimal u with
        | none => .nan
        | some (m, e) =>
          if roundsToZero m e then .zero
          else if neg then .negative else .positive

/-! ## The patterns of `validate` -/

/-- A class under the `i` flag: a character is accepted when it or its other
case is.  All members of the classes below are ASCII, where `Canonicalize` is
the ASCII case mapping and never identifies a character above U+007F with one
below. -/
def ci (p : Char → Bool) (c : Char) : Bool := p c || p c.toLower || p c.toUpper

/-- The class `[a-z]`. -/
def isLower (c : Char) : Bool := 97 ≤ c.toNat && c.toNat ≤ 122

/-- One of the listed characters. -/
def oneOf (s : String) (c : Char) : Bool := s.data.contains c

namespace RE

/-- A literal character under the `i` flag. -/
def chrI (c : Char) : RE := cls (ci (fun x => x == c))

/-- A literal string under the `i` flag. -/
def strI (s : String) : RE := s.data.foldr (fun c r => seq (chrI c) r) eps

end RE

/-- The class `[a-z\d]` under `i`. -/
def alnumI : RE := .cls (ci (fun c => isLower c || isDigit c))

/-- The class `[a-z\d-]` under `i`. -/
def alnumHyphenI : RE := .cls (ci (fun c => isLower c || isDigit c || c == '-'))

/-- The class `\d` under `i`. -/
def digitI : RE := .cls (ci isDigit)

/-- Protocol: `(https?:\/\/)?` -/
def urlProtocol : RE :=
  .opt (.seq (.strI "http") (.seq (.opt (.chrI 's')) (.strI "://")))

/-- Domain name: `(([a-z\d]([a-z\d-]*[a-z\d])*)\.?)+[a-z]{2,}` -/
def urlDomain : RE :=
  .seq
    (.plus (.seq (.seq alnumI (.star (.seq (.star alnumHyphenI) alnumI)))
                 (.opt (.chrI '.'))))
    (.atLeast 2 (.cls (ci isLower)))

/-- IPv4 address: `((\d{1,3}\.){3}\d{1,3})` -/
def urlIp : RE :=
  .seq (.rep 3 (.seq (.between 1 2 digitI) (.chrI '.'))) (.between 1 2 digitI)

/-- Port: `(\:\d+)?` -/
def urlPort : RE := .opt (.seq (.chrI ':') (.plus digitI))

/-- Path: `(\/[-a-z\d%_.~+]*)*` -/
def urlPath : RE :=
  .star (.seq (.chrI '/')
    (.star (.cls (ci (fun c => c == '-' || isLower c || isDigit c || oneOf "%_.~+" c)))))

/-- Query string: `(\?[;&a-z\d%_.~+=-]*)?` -/
def urlQuery : RE :=
  .opt (.seq (.chrI '?')
    (.star (.cls (ci (fun c => oneOf ";&" c || isLower c || isDigit c || oneOf "%_.~+=-" c)))))

/-- Fragment: `(\#[-a-z\d_]*)?` -/
def urlFragment : RE :=
  .opt (.seq (.chrI '#')
    (.star (.cls (ci (fun c => c == '-' || isLower c || isDigit c || c == '_')))))

/-- The body of `urlPattern`, between `^` and `$`, flag `i`. -/
def urlPattern : RE :=
  .seq urlProtocol (.seq (.alt urlDomain urlIp)
    (.seq urlPort (.seq urlPath (.seq urlQuery urlFragment))))

/-- The class `\S`. -/
def nonSpace : RE := .cls (fun c => !isWhiteSpace c)

/-- The email pattern `/\S+@\S+\.\S+/`. -/
def emailPattern : RE :=
  .seq (.plus nonSpace) (.seq (.chr '@') (.seq (.plus nonSpace)
    (.seq (.chr '.') (.plus nonSpace))))

/-- The body of `/^\d+$/`. -/
def phonePattern : RE := .plus (.cls isDigit)

/-! ## Form state -/

/-- The `formData` object. -/
structure FormData where
  fullName : String
  email : String
  phoneNumber : String
  position : String
  relevantExperience : String
  portfolioUrl : String
  managementExperience : String
  additionalSkills : List String
  preferredInterviewTime : String
  deriving DecidableEq, Repr

/-- The initial value of `formData`. -/
def initialFormData : FormData where
  fullName := ""
  email := ""
  phoneNumber := ""
  position := ""
  relevantExperience := ""
  portfolioUrl := ""
  managementExperience := ""
  additionalSkills := []
  preferredInterviewTime := ""

/-- The selectable positions. -/
def positions : List String := ["Developer", "Designer", "Manager"]

/-- The skill catalog: one checkbox is rendered per entry. -/
def skills : List String := ["JavaScript", "CSS", "Python", "React", "Node.js"]

/-- The `name` attributes of the inputs wired to `handleChange`. -/
inductive ScalarField where
  | fullName
  | email
  | phoneNumber
  | position
  | relevantExperience
  | portfolioUrl
  | managementExperience
  | preferredInterviewTime
  deriving DecidableEq, Repr

/-- The change handler of the scalar inputs: `{...formData, [name]: value}`. -/
def handleChange (name : ScalarField) (value : String) (formData : FormData) : FormData :=
  match name with
  | .fullName => { formData with fullName := value }
  | .email => { formData with email := value }
  | .phoneNumber => { formData with phoneNumber := value }
  | .position => { formData with position := value }
  | .relevantExperience => { formData with relevantExperience := value }
  | .portfolioUrl => { formData with portfolioUrl := value }
  | .managementExperience => { formData with managementExperience := value }
  | .preferredInterviewTime => { formData with preferredInterviewTime := value }

/-- The change handler of the skill checkboxes. -/
def handleSkillChange (value : String) (checked : Bool) (formData : FormData) : FormData :=
  let updatedSkills :=
    if checked then formData.additionalSkills ++ [value]
    else formData.additionalSkills.filter (fun skill => skill != value)
  { formData with additionalSkills := updatedSkills }

/-- The `checked` attribute the checkbox of a skill is rendered with. -/
def checkboxChecked (formData : FormData) (skill : String) : Bool :=
  formData.additionalSkills.contains skill

/-- An input event of the form. -/
inductive Event where
  | change (name : ScalarField) (value : String)
  | skill (value : String) (checked : Bool)
  deriving DecidableEq, Repr

/-- The handler an event is wired to. -/
def step (formData : FormData) : Event → FormData
  | .change name value => handleChange name value formData
  | .skill value checked => handleSkillChange value checked formData

/-- The draft after a sequence of events. -/
def run (formData : FormData) (events : List Event) : FormData :=
  events.foldl step formData

/-- Can the rendered form emit the event in the given state?  A skill event
comes from the checkbox of a catalog skill, and clicking a checkbox flips the
`checked` value it is rendered with. -/
def emittable (formData : FormData) : Event → Bool
  | .change _ _ => true
  | .skill value checked =>
      skills.contains value && (checked == !checkboxChecked formData value)

/-- Every event of the sequence is one the form can emit in the state it meets. -/
def allEmittable : FormData → List Event → Bool
  | _, [] => true
  | formData, e :: es => emittable formData e && allEmittable (step formData e) es

/-! ## Validation -/

/-- The keys of the `errors` object. -/
inductive Field where
  | fullName
  | email
  | phoneNumber
  | relevantExperience
  | portfolioUrl
  | managementExperience
  | additionalSkills
  | preferredInterviewTime
  deriving DecidableEq, Repr

/-- The `errors` object: its properties in insertion order. -/
abbrev ErrorMap := List (Field × String)

namespace ErrorMap

/-- The assignment `errors[key] = message`. -/
def set (errors : ErrorMap) (key : Field) (message : String) : ErrorMap :=
  if errors.any (fun e => e.1 == key) then
    errors.map (fun e => if e.1 == key then (key, message) else e)
  else errors ++ [(key, message)]

/-- The read `errors[key]`, `none` for `undefined`. -/
def get (errors : ErrorMap) (key : Field) : Option String := errors.lookup key

/-- The keys `Object.keys(errors)`. -/
def keys (errors : ErrorMap) : List Field := errors.map Prod.fst

end ErrorMap

/-- The `errors` object that `validate` builds from `formData`. -/
def validationErrors (formData : FormData) : ErrorMap :=
  let errors : ErrorMap := []
  let errors :=
    if !truthy (trim formData.fullName) then errors.set .fullName "Full Name is required"
    else errors
  let errors :=
    if !truthy (trim formData.email) then errors.set .email "Email is required"
    else if !emailPattern.test formData.email.data then
      errors.set .email "Email address is invalid"
    else errors
  let errors :=
    if !truthy (trim formData.phoneNumber) then
      errors.set .phoneNumber "Phone Number is required"
    else if !phonePattern.matchAll formData.phoneNumber.data then
      errors.set .phoneNumber "Phone Number must be a valid number"
    else errors
  let errors :=
    if (formData.position == "Developer" || formData.position == "Designer") &&
        (!truthy formData.relevantExperience ||
          (stringToNumber formData.relevantExperience).leZero) then
      errors.set .relevantExperience
        "Relevant Experience is required and must be greater than 0"
    else errors
  let errors :=
    if formData.position == "Designer" &&
        (!truthy (trim formData.portfolioUrl) ||
          !urlPattern.matchAll formData.portfolioUrl.data) then
      errors.set .portfolioUrl "Portfolio URL is required and must be a valid URL"
    else errors
  let errors :=
    if formData.position == "Manager" && !truthy (trim formData.managementExperience) then
      errors.set .managementExperience "Management Experience is required"
    else errors
  let errors :=
    if formData.additionalSkills.length == 0 then
      errors.set .additionalSkills "At least one skill must be selected"
    else errors
  let errors :=
    if !truthy (trim formData.preferredInterviewTime) then
      errors.set .preferredInterviewTime "Preferred Interview Time is required"
    else errors
  errors

/-- The state of the component. -/
structure State where
  formData : FormData
  errors : ErrorMap
  showSummary : Bool
  deriving DecidableEq, Repr

/-- The state the component is mounted with. -/
def initialState : State where
  formData := initialFormData
  errors := []
  showSummary := false

/-- The function `validate`: stores the errors and returns whether there are none. -/
def validate (s : State) : State × Bool :=
  let errors := validationErrors s.formData
  ({ s with errors := errors }, errors.keys.length == 0)

/-- The submit handler of the form. -/
def handleSubmit (s : State) : State :=
  let r := validate s
  if r.2 then { r.1 with showSummary := true } else r.1

/-- The draft of the end-to-end example. -/
def janeDoe : FormData where
  fullName := "Jane Doe"
  email := "jane@x.com"
  phoneNumber := "5551234567"
  position := "Manager"
  relevantExperience := ""
  portfolioUrl := ""
  managementExperience := "5 years"
  additionalSkills := ["React"]
  preferredInterviewTime := "2024-01-01T10:00"

/-! ## Vocabulary of the statements -/

/-- Does some character class of the expression accept the character? -/
def RE.usesChar : RE → Char → Bool
  | .empty, _ => false
  | .eps, _ => false
  | .cls p, c => p c
  | .seq a b, c => a.usesChar c || b.usesChar c
  | .alt a b, c => a.usesChar c || b.usesChar c
  | .star a, c => a.usesChar c

/-- The shape of the email rule as the specification words it: one or more
non-space characters, `@`, one or more non-space characters, `.`, one or more
non-space characters. -/
def EmailShape (s : List Char) : Prop :=
  ∃ a b c, s = a ++ '@' :: (b ++ '.' :: c) ∧
    (a ≠ [] ∧ ∀ x ∈ a, isWhiteSpace x = false) ∧
    (b ≠ [] ∧ ∀ x ∈ b, isWhiteSpace x = false) ∧
    (c ≠ [] ∧ ∀ x ∈ c, isWhiteSpace x = false)

/-- Some segment of the string has the email shape. -/
def ContainsEmailShape (s : List Char) : Prop :=
  ∃ t u v, s = t ++ u ++ v ∧ EmailShape u

/-- A string is blank when all of its characters are white space. -/
def Blank (s : String) : Prop := ∀ c ∈ s.data, isWhiteSpace c = true

/-- A draft whose email is a single space. -/
def blankEmailDraft : FormData := { initialFormData with email := " " }

/-- A draft whose phone number is a single space. -/
def blankPhoneDraft : FormData := { initialFormData with phoneNumber := " " }

/-- The same catalog skill toggled on twice. -/
def doubleToggleOn : List Event := [.skill "JavaScript" true, .skill "JavaScript" true]

/-- Events the form emits: two skills ticked, a field typed, one skill unticked. -/
def sampleSession : List Event :=
  [.skill "React" true, .change .fullName "Jane Doe", .skill "CSS" true, .skill "React" false]

/-! ## Numeric strings -/

/-- The character of a decimal digit. -/
def digitChar (d : Fin 10) : Char := Char.ofNat (48 + d.val)

/-- The natural number a run of decimal digits denotes. -/
def digitsNat (ds : List (Fin 10)) : Nat := ds.foldl (fun acc d => 10 * acc + d.val) 0

/-- The sign written in an exponent. -/
inductive ExpSign where
  | unsigned
  | plus
  | minus
  deriving DecidableEq, Repr

/-- The exponent of a numeric string: `e` or `E`, a sign, digits. -/
structure Exponent where
  upper : Bool
  sign : ExpSign
  digits : List (Fin 10)
  deriving DecidableEq, Repr

/-- A numeric string by its parts, as an input of type `number` holds it (a
valid floating-point number): an optional `-`, integer digits, an optional
fraction of a `.` and digits, an optional exponent. -/
structure Numeral where
  negative : Bool
  intDigits : List (Fin 10)
  fracDigits : List (Fin 10)
  exponent : Option Exponent
  deriving DecidableEq, Repr

/-- The characters of an exponent. -/
def Exponent.chars (e : Exponent) : List Char :=
  (if e.upper then 'E' else 'e') ::
    ((match e.sign with
      | .unsigned => []
      | .plus => ['+']
      | .minus => ['-']) ++ e.digits.map digitChar)

/-- The integer an exponent denotes. -/
def Exponent.value (e : Exponent) : Int :=
  match e.sign with
  | .minus => - Int.ofNat (digitsNat e.digits)
  | _ => Int.ofNat (digitsNat e.digits)

/-- The characters of an optional fraction: nothing, or `.` and the digits. -/
def fracChars (ds : List (Fin 10)) : List Char :=
  if ds.isEmpty then [] else '.' :: ds.map digitChar

/-- The characters of an optional exponent. -/
def expChars : Option Exponent → List Char
  | none => []
  | some e => e.chars

/-- The integer an optional exponent denotes. -/
def expValue : Option Exponent → Int
  | none => 0
  | some e => e.value

/-- The characters of a numeral after its sign. -/
def Numeral.body (n : Numeral) : List Char :=
  n.intDigits.map digitChar ++ (fracChars n.fracDigits ++ expChars n.exponent)

/-- The numeric string of a numeral. -/
def Numeral.render (n : Numeral) : String :=
  ⟨(if n.negative then ['-'] else []) ++ n.body⟩

/-- There is a digit before or after the point, and an exponent has a digit. -/
def Numeral.wellFormed (n : Numeral) : Bool :=
  (!n.intDigits.isEmpty || !n.fracDigits.isEmpty) &&
    (match n.exponent with
      | none => true
      | some e => !e.digits.isEmpty)

/-- The power of ten a numeral's digits are scaled by. -/
def Numeral.scale (n : Numeral) : Int :=
  expValue n.exponent - Int.ofNat n.fracDigits.length

/-- The rational number a numeral denotes. -/
def Numeral.value (n : Numeral) : ℚ :=
  (if n.negative then -1 else 1) *
    ((digitsNat (n.intDigits ++ n.fracDigits) : ℚ) * (10 : ℚ) ^ n.scale)

/-- The double nearest to `q` is greater than zero: `q` exceeds `2 ^ (-1075)`,
half the least positive double. -/
def IsPositiveNumber (q : ℚ) : Prop := 1 / (2 : ℚ) ^ 1075 < q

/-- The numeral `1e-400`. -/
def tinyNumeral : Numeral where
  negative := false
  intDigits := [1]
  fracDigits := []
  exponent := some { upper := false, sign := .minus, digits := [4, 0, 0] }

/-- A developer draft with the experience `1e-400`. -/
def tinyDraft : FormData :=
  { initialFormData with position := "Developer", relevantExperience := "1e-400" }

/-! ## The matcher decides the denotation -/

namespace RE

theorem not_matches_empty (w : List Char) : ¬ Matches empty w := by
  intro h
  cases h

theorem matches_eps_iff (w : List Char) : Matches eps w ↔ w = [] := by
  constructor
  · intro h
    cases h
    rfl
  · rintro rfl
    exact Matches.eps

theorem matches_cls_iff (p : Char → Bool) (w : List Char) :
    Matches (cls p) w ↔ ∃ c, p c = true ∧ w = [c] := by
  constructor
  · intro h
    cases h with
    | cls _ c hc => exact ⟨c, hc, rfl⟩
  · rintro ⟨c, hc, rfl⟩
    exact Matches.cls p c hc

theorem matches_seq_iff (a b : RE) (w : List Char) :
    Matches (seq a b) w ↔ ∃ u v, w = u ++ v ∧ Matches a u ∧ Matches b v := by
  constructor
  · intro h
    cases h with
    | seq _ _ u v hu hv => exact ⟨u, v, rfl, hu, hv⟩
  · rintro ⟨u, v, rfl, hu, hv⟩
    exact Matches.seq a b u v hu hv

theorem matches_alt_iff (a b : RE) (w : List Char) :
    Matches (alt a b) w ↔ Matches a w ∨ Matches b w := by
  constructor
  · intro h
    cases h with
    | altL _ _ _ h => exact Or.inl h
    | altR _ _ _ h => exact Or.inr h
  · rintro (h | h)
    · exact Matches.altL a b w h
    · exact Matches.altR a b w h

theorem nullable_iff (r : RE) : r.nullable = true ↔ Matches r [] := by
  induction r with
  | empty => simp [nullable, not_matches_empty]
  | eps => simp [nullable, matches_eps_iff]
  | cls p => simp [nullable, matches_cls_iff]
  | seq a b iha ihb =>
    simp only [nullable, Bool.and_eq_true, iha, ihb, matches_seq_iff]
    constructor
    · rintro ⟨ha, hb⟩
      exact ⟨[], [], rfl, ha, hb⟩
    · rintro ⟨u, v, huv, ha, hb⟩
      have h := List.append_eq_nil.mp huv.symm
      rw [h.1] at ha
      rw [h.2] at hb
      exact ⟨ha, hb⟩
  | alt a b iha ihb => simp [nullable, iha, ihb, matches_alt_iff]
  | star a _ => simp [nullable, Matches.starNil]

theorem matches_of_deriv (r : RE) (c : Char) :
    ∀ w, Matches (r.deriv c) w → Matches r (c :: w) := by
  induction r with
  | empty => intro w h; exact absurd h (not_matches_empty w)
  | eps => intro w h; exact absurd h (not_matches_empty w)
  | cls p =>
    intro w h
    by_cases hp : p c = true
    · simp only [deriv, hp, if_true, matches_eps_iff] at h
      subst h
      exact Matches.cls p c hp
    · simp only [deriv, hp] at h
      exact absurd h (not_matches_empty w)
  | seq a b iha ihb =>
    intro w h
    have key : ∀ x, Matches (seq (a.deriv c) b) x → Matches (seq a b) (c :: x) := by
      intro x hx
      obtain ⟨u, v, rfl, hu, hv⟩ := (matches_seq_iff _ _ _).mp hx
      exact Matches.seq a b (c :: u) v (iha u hu) hv
    by_cases hn : a.nullable = true
    · simp only [deriv, hn, if_true, matches_alt_iff] at h
      rcases h with h | h
      · exact key w h
      · exact Matches.seq a b [] (c :: w) ((nullable_iff a).mp hn) (ihb w h)
    · simp only [deriv, hn] at h
      exact key w h
  | alt a b iha ihb =>
    intro w h
    simp only [deriv, matches_alt_iff] at h
    rcases h with h | h
    · exact Matches.altL a b _ (iha w h)
    · exact Matches.altR a b _ (ihb w h)
  | star a iha =>
    intro w h
    simp only [deriv] at h
    obtain ⟨u, v, rfl, hu, hv⟩ := (matches_seq_iff _ _ _).mp h
    exact Matches.starCons a (c :: u) v (iha u hu) hv

theorem deriv_of_matches (r : RE) (x : List Char) (h : Matches r x) :
    ∀ c w, x = c :: w → Matches (r.deriv c) w := by
  induction h with
  | eps => intro c w hx; cases hx
  | cls p d hd =>
    intro c w hx
    cases hx
    simp only [deriv, hd, if_true]
    exact Matches.eps
  | seq a b u v hu hv iha ihb =>
    intro c w hx
    cases u with
    | nil =>
      have hb := ihb c w hx
      have hn := (nullable_iff a).mpr hu
      simp only [deriv, hn, if_true]
      exact Matches.altR _ _ _ hb
    | cons d u1 =>
      cases hx
      have ha := iha _ _ rfl
      have hs := Matches.seq _ _ _ _ ha hv
      by_cases hn : a.nullable = true
      · simp only [deriv, hn, if_true]
        exact Matches.altL _ _ _ hs
      · simp only [deriv, hn]
        exact hs
  | altL a b u hu iha =>
    intro c w hx
    exact Matches.altL _ _ _ (iha c w hx)
  | altR a b u hu ihb =>
    intro c w hx
    exact Matches.altR _ _ _ (ihb c w hx)
  | starNil a => intro c w hx; cases hx
  | starCons a u v hu hv iha ihv =>
    intro c w hx
    cases u with
    | nil => exact ihv c w hx
    | cons d u1 =>
      cases hx
      exact Matches.seq _ _ _ _ (iha _ _ rfl) hv

theorem matches_deriv_iff (r : RE) (c : Char) (w : List Char) :
    Matches (r.deriv c) w ↔ Matches r (c :: w) :=
  ⟨matches_of_deriv r c w, fun h => deriv_of_matches r (c :: w) h c w rfl⟩

/-- The whole-input matcher decides membership in the denotation. -/
theorem matchAll_iff (w : List Char) : ∀ r : RE, r.matchAll w = true ↔ Matches r w := by
  induction w with
  | nil => intro r; simp [matchAll, nullable_iff]
  | cons c cs ih => intro r; simp [matchAll, ih, matches_deriv_iff]

/-- One attempt of the matcher succeeds when an initial segment is in the
denotation. -/
theorem matchStart_iff (w : List Char) :
    ∀ r : RE, r.matchStart w = true ↔ ∃ u v, w = u ++ v ∧ Matches r u := by
  induction w with
  | nil =>
    intro r
    simp only [matchStart, nullable_iff]
    constructor
    · intro h
      exact ⟨[], [], rfl, h⟩
    · rintro ⟨u, v, huv, hu⟩
      have h := List.append_eq_nil.mp huv.symm
      rw [h.1] at hu
      exact hu
  | cons c cs ih =>
    intro r
    simp only [matchStart, Bool.or_eq_true, nullable_iff, ih, matches_deriv_iff]
    constructor
    · rintro (h | ⟨u, v, rfl, hu⟩)
      · exact ⟨[], c :: cs, rfl, h⟩
      · exact ⟨c :: u, v, rfl, hu⟩
    · rintro ⟨u, v, huv, hu⟩
      cases u with
      | nil => exact Or.inl hu
      | cons d u1 =>
        simp only [List.cons_append, List.cons.injEq] at huv
        obtain ⟨rfl, rfl⟩ := huv
        exact Or.inr ⟨u1, v, rfl, hu⟩

/-- The unanchored test succeeds when some segment of the input is in the
denotation. -/
theorem test_iff (r : RE) (w : List Char) :
    r.test w = true ↔ ∃ t u v, w = t ++ u ++ v ∧ Matches r u := by
  induction w with
  | nil =>
    simp only [test, matchStart_iff]
    constructor
    · rintro ⟨u, v, huv, hu⟩
      exact ⟨[], u, v, by simpa using huv, hu⟩
    · rintro ⟨t, u, v, htuv, hu⟩
      have h1 := List.append_eq_nil.mp htuv.symm
      have h2 := List.append_eq_nil.mp h1.1
      exact ⟨u, v, by simp [h2.2, h1.2], hu⟩
  | cons c cs ih =>
    simp only [test, Bool.or_eq_true, matchStart_iff, ih]
    constructor
    · rintro (⟨u, v, huv, hu⟩ | ⟨t, u, v, htuv, hu⟩)
      · exact ⟨[], u, v, by simpa using huv, hu⟩
      · exact ⟨c :: t, u, v, by simp [htuv], hu⟩
    · rintro ⟨t, u, v, htuv, hu⟩
      cases t with
      | nil => exact Or.inl ⟨u, v, by simpa using htuv, hu⟩
      | cons d t1 =>
        simp only [List.cons_append, List.cons.injEq] at htuv
        obtain ⟨rfl, rfl⟩ := htuv
        exact Or.inr ⟨t1, u, v, rfl, hu⟩

end RE

/-! ## Classes, runs of a class -/

namespace RE

theorem matches_star_cls_iff (p : Char → Bool) (w : List Char) :
    Matches (star (cls p)) w ↔ ∀ c ∈ w, p c = true := by
  constructor
  · intro h
    generalize hr : star (cls p) = r at h
    induction h with
    | eps => cases hr
    | cls _ _ _ => cases hr
    | seq _ _ _ _ _ _ _ _ => cases hr
    | altL _ _ _ _ _ => cases hr
    | altR _ _ _ _ _ => cases hr
    | starNil a => simp
    | starCons a u v hu _ _ ihv =>
      cases hr
      obtain ⟨d, hd, rfl⟩ := (matches_cls_iff p u).mp hu
      intro c hc
      simp only [List.singleton_append, List.mem_cons] at hc
      rcases hc with rfl | hc
      · exact hd
      · exact ihv rfl c hc
  · intro h
    induction w with
    | nil => exact Matches.starNil _
    | cons c cs ih =>
      have hc : p c = true := h c (List.mem_cons_self c cs)
      have hcs := ih (fun x hx => h x (List.mem_cons_of_mem c hx))
      exact Matches.starCons (cls p) [c] cs (Matches.cls p c hc) hcs

theorem matches_plus_cls_iff (p : Char → Bool) (w : List Char) :
    Matches (plus (cls p)) w ↔ w ≠ [] ∧ ∀ c ∈ w, p c = true := by
  simp only [plus, matches_seq_iff, matches_cls_iff, matches_star_cls_iff]
  constructor
  · rintro ⟨u, v, rfl, ⟨c, hc, rfl⟩, hv⟩
    refine ⟨by simp, ?_⟩
    intro x hx
    simp only [List.singleton_append, List.mem_cons] at hx
    rcases hx with rfl | hx
    · exact hc
    · exact hv x hx
  · rintro ⟨hne, h⟩
    cases w with
    | nil => exact absurd rfl hne
    | cons c cs =>
      exact ⟨[c], cs, rfl, ⟨c, h c (List.mem_cons_self c cs), rfl⟩,
        fun x hx => h x (List.mem_cons_of_mem c hx)⟩

theorem matches_chr_iff (c : Char) (w : List Char) : Matches (chr c) w ↔ w = [c] := by
  simp only [chr, matches_cls_iff, beq_iff_eq]
  constructor
  · rintro ⟨d, rfl, rfl⟩
    rfl
  · rintro rfl
    exact ⟨c, rfl, rfl⟩

end RE

/-! ## Strings -/

theorem not_eq_true_iff (b : Bool) : (!b) = true ↔ b = false := by
  cases b <;> simp

theorem truthy_eq_false_iff (s : String) : truthy s = false ↔ s = "" := by
  cases s with
  | mk l => cases l <;> simp [truthy, String.ext_iff]

theorem trimChars_eq_nil_iff (s : List Char) :
    trimChars s = [] ↔ ∀ c ∈ s, isWhiteSpace c = true := by
  unfold trimChars
  rw [List.reverse_eq_nil_iff, List.dropWhile_eq_nil_iff]
  constructor
  · intro h
    by_cases ht : List.dropWhile isWhiteSpace s = []
    · exact List.dropWhile_eq_nil_iff.mp ht
    · have h1 := List.head_dropWhile_not isWhiteSpace s ht
      have h2 := h _ (List.mem_reverse.mpr (List.head_mem ht))
      rw [h1] at h2
      cases h2
  · intro h x hx
    rw [List.dropWhile_eq_nil_iff.mpr h] at hx
    simp at hx

/-- A string is blank when `trim` leaves nothing of it. -/
theorem blank_iff (s : String) :
    truthy (trim s) = false ↔ ∀ c ∈ s.data, isWhiteSpace c = true := by
  rw [truthy_eq_false_iff, String.ext_iff]
  exact trimChars_eq_nil_iff s.data

/-! ## The `errors` object -/

namespace ErrorMap

theorem get_map_replace (errors : ErrorMap) (key k : Field) (message : String) :
    List.lookup k (errors.map (fun e => if e.1 == key then (key, message) else e)) =
      if k = key then (if errors.any (fun e => e.1 == key) then some message else none)
      else List.lookup k errors := by
  induction errors with
  | nil => simp
  | cons e es ih =>
    obtain ⟨a, b⟩ := e
    rw [List.map_cons, List.any_cons]
    by_cases ha : a = key
    · have hak : (a == key) = true := by simpa using ha
      simp only [hak, if_true, Bool.true_or, List.lookup_cons]
      by_cases hk : k = key
      · subst hk
        simp
      · have hkk : (k == key) = false := by simpa using hk
        have hka : (k == a) = false := by simpa [ha] using hk
        simp only [hkk, hka, hk, if_false]
        rw [ih, if_neg hk]
    · have hak : (a == key) = false := by simpa using ha
      simp only [hak, Bool.false_or, List.lookup_cons, Bool.false_eq_true, if_false]
      by_cases hk : k = key
      · have hka : (k == a) = false := by
          simpa [hk] using fun h : key = a => ha h.symm
        simp only [hka]
        rw [ih]
      · rw [ih, if_neg hk, if_neg hk]

theorem lookup_eq_none_of_not_any (errors : ErrorMap) (key : Field)
    (h : errors.any (fun e => e.1 == key) = false) : List.lookup key errors = none := by
  induction errors with
  | nil => rfl
  | cons e es ih =>
    obtain ⟨a, b⟩ := e
    rw [List.any_cons, Bool.or_eq_false_iff] at h
    have hne : (key == a) = false := by
      have h1 : ¬ a = key := by simpa using h.1
      simpa using fun h2 : key = a => h1 h2.symm
    simp only [List.lookup_cons, hne]
    exact ih h.2

/-- Reading a property after an assignment. -/
theorem get_set (errors : ErrorMap) (key k : Field) (message : String) :
    (errors.set key message).get k = if k = key then some message else errors.get k := by
  unfold set get
  by_cases h : errors.any (fun e => e.1 == key) = true
  · rw [if_pos h, get_map_replace, if_pos h]
  · rw [if_neg h, List.lookup_append]
    have h0 : errors.any (fun e => e.1 == key) = false := Bool.eq_false_iff.mpr h
    by_cases hk : k = key
    · subst hk
      simp [lookup_eq_none_of_not_any errors k h0]
    · have hne : (k == key) = false := by simpa using hk
      simp [List.lookup_cons, hne, hk]

theorem get_ite_set (c : Prop) [Decidable c] (errors : ErrorMap) (key k : Field)
    (message : String) :
    (if c then errors.set key message else errors).get k =
      if c ∧ k = key then some message else errors.get k := by
  by_cases hc : c <;> simp [hc, get_set]

theorem get_ite_ite_set (c1 c2 : Prop) [Decidable c1] [Decidable c2] (errors : ErrorMap)
    (key k : Field) (m1 m2 : String) :
    (if c1 then errors.set key m1 else if c2 then errors.set key m2 else errors).get k =
      if k = key then (if c1 then some m1 else if c2 then some m2 else errors.get k)
      else errors.get k := by
  by_cases h1 : c1 <;> by_cases h2 : c2 <;> by_cases hk : k = key <;> simp [h1, h2, hk, get_set]

theorem get_nil (k : Field) : ErrorMap.get [] k = none := rfl

theorem mem_keys_iff (errors : ErrorMap) (k : Field) :
    k ∈ errors.keys ↔ errors.get k ≠ none := by
  unfold keys get
  induction errors with
  | nil => simp
  | cons e es ih =>
    obtain ⟨a, b⟩ := e
    by_cases hk : k = a
    · subst hk
      simp
    · have hne : (k == a) = false := by simpa using hk
      simp [List.lookup_cons, hne, hk, ih]

end ErrorMap

theorem get_fullName (d : FormData) :
    (validationErrors d).get .fullName =
      if truthy (trim d.fullName) = false then some "Full Name is required" else none := by
  simp [validationErrors, ErrorMap.get_ite_set, ErrorMap.get_ite_ite_set, ErrorMap.get_nil]

theorem get_email (d : FormData) :
    (validationErrors d).get .email =
      if truthy (trim d.email) = false then some "Email is required"
      else if emailPattern.test d.email.data = false then some "Email address is invalid"
      else none := by
  simp [validationErrors, ErrorMap.get_ite_set, ErrorMap.get_ite_ite_set, ErrorMap.get_nil]

theorem get_phoneNumber (d : FormData) :
    (validationErrors d).get .phoneNumber =
      if truthy (trim d.phoneNumber) = false then some "Phone Number is required"
      else if phonePattern.matchAll d.phoneNumber.data = false then
        some "Phone Number must be a valid number"
      else none := by
  simp [validationErrors, ErrorMap.get_ite_set, ErrorMap.get_ite_ite_set, ErrorMap.get_nil]

theorem get_relevantExperience (d : FormData) :
    (validationErrors d).get .relevantExperience =
      if (d.position = "Developer" ∨ d.position = "Designer") ∧
          (truthy d.relevantExperience = false ∨
            (stringToNumber d.relevantExperience).leZero = true) then
        some "Relevant Experience is required and must be greater than 0"
      else none := by
  simp [validationErrors, ErrorMap.get_ite_set, ErrorMap.get_ite_ite_set, ErrorMap.get_nil]

theorem get_portfolioUrl (d : FormData) :
    (validationErrors d).get .portfolioUrl =
      if d.position = "Designer" ∧
          (truthy (trim d.portfolioUrl) = false ∨
            urlPattern.matchAll d.portfolioUrl.data = false) then
        some "Portfolio URL is required and must be a valid URL"
      else none := by
  simp [validationErrors, ErrorMap.get_ite_set, ErrorMap.get_ite_ite_set, ErrorMap.get_nil]

theorem get_managementExperience (d : FormData) :
    (validationErrors d).get .managementExperience =
      if d.position = "Manager" ∧ truthy (trim d.managementExperience) = false then
        some "Management Experience is required"
      else none := by
  simp [validationErrors, ErrorMap.get_ite_set, ErrorMap.get_ite_ite_set, ErrorMap.get_nil]

theorem get_additionalSkills (d : FormData) :
    (validationErrors d).get .additionalSkills =
      if d.additionalSkills = [] then some "At least one skill must be selected"
      else none := by
  simp [validationErrors, ErrorMap.get_ite_set, ErrorMap.get_ite_ite_set, ErrorMap.get_nil]

theorem get_preferredInterviewTime (d : FormData) :
    (validationErrors d).get .preferredInterviewTime =
      if truthy (trim d.preferredInterviewTime) = false then
        some "Preferred Interview Time is required"
      else none := by
  simp [validationErrors, ErrorMap.get_ite_set, ErrorMap.get_ite_ite_set, ErrorMap.get_nil]

/-! ## White space and the URL pattern -/

theorem RE.usesChar_of_matches (r : RE) (w : List Char) (h : RE.Matches r w) :
    ∀ c ∈ w, r.usesChar c = true := by
  induction h with
  | eps => simp
  | cls p d hd => simpa [RE.usesChar] using hd
  | seq a b u v _ _ iha ihb =>
    intro c hc
    rcases List.mem_append.mp hc with hc | hc
    · simp [RE.usesChar, iha c hc]
    · simp [RE.usesChar, ihb c hc]
  | altL a b u _ iha =>
    intro c hc
    simp [RE.usesChar, iha c hc]
  | altR a b u _ ihb =>
    intro c hc
    simp [RE.usesChar, ihb c hc]
  | starNil a => simp
  | starCons a u v _ _ iha ihv =>
    intro c hc
    rcases List.mem_append.mp hc with hc | hc
    · simpa [RE.usesChar] using iha c hc
    · exact ihv c hc

theorem urlPattern_rejects_codes :
    ∀ n ∈ whiteSpaceCodes, urlPattern.usesChar (Char.ofNat n) = false := by
  decide

theorem urlPattern_rejects_whiteSpace (c : Char) (h : isWhiteSpace c = true) :
    urlPattern.usesChar c = false := by
  have hmem : c.toNat ∈ whiteSpaceCodes := by
    simpa [isWhiteSpace] using h
  have := urlPattern_rejects_codes c.toNat hmem
  rwa [Char.ofNat_toNat] at this

/-- No string with a white-space character matches the URL pattern. -/
theorem urlPattern_no_whiteSpace (w : List Char) (c : Char) (hc : c ∈ w)
    (h : isWhiteSpace c = true) : urlPattern.matchAll w = false := by
  rw [Bool.eq_false_iff]
  intro hm
  have h1 := RE.usesChar_of_matches urlPattern w ((RE.matchAll_iff w urlPattern).mp hm) c hc
  rw [urlPattern_rejects_whiteSpace c h] at h1
  cases h1

/-! ## Conditional fields -/

/-- C1: the position-conditional keys of the errors: `relevantExperience` is
present only for Developer or Designer, `portfolioUrl` only for Designer,
`managementExperience` only for Manager, whatever the other fields hold; a
Designer with empty `portfolioUrl` and empty `relevantExperience` gets both
keys; a Manager gets neither of them and gets `managementExperience` exactly
when that field is empty after trimming. -/
theorem C1_conditional_keys (d : FormData) :
    (Field.relevantExperience ∈ (validationErrors d).keys →
      d.position = "Developer" ∨ d.position = "Designer") ∧
    (Field.portfolioUrl ∈ (validationErrors d).keys → d.position = "Designer") ∧
    (Field.managementExperience ∈ (validationErrors d).keys → d.position = "Manager") ∧
    (d.position = "Designer" → d.portfolioUrl = "" → d.relevantExperience = "" →
      Field.relevantExperience ∈ (validationErrors d).keys ∧
      Field.portfolioUrl ∈ (validationErrors d).keys) ∧
    (d.position = "Manager" →
      Field.relevantExperience ∉ (validationErrors d).keys ∧
      Field.portfolioUrl ∉ (validationErrors d).keys ∧
      (Field.managementExperience ∈ (validationErrors d).keys ↔
        trim d.managementExperience = "")) := by
  simp only [ErrorMap.mem_keys_iff, get_relevantExperience, get_portfolioUrl,
    get_managementExperience]
  refine ⟨?_, ?_, ?_, ?_, ?_⟩
  · intro h
    by_contra hp
    exact h (if_neg (fun hc => hp hc.1))
  · intro h
    by_contra hp
    exact h (if_neg (fun hc => hp hc.1))
  · intro h
    by_contra hp
    exact h (if_neg (fun hc => hp hc.1))
  · intro hp hu hr
    have h1 : truthy d.relevantExperience = false := by rw [hr]; rfl
    have h2 : truthy (trim d.portfolioUrl) = false := by rw [hu]; rfl
    constructor
    · rw [if_pos ⟨Or.inr hp, Or.inl h1⟩]
      simp
    · rw [if_pos ⟨hp, Or.inl h2⟩]
      simp
  · intro hp
    have hdev : ¬ (d.position = "Developer" ∨ d.position = "Designer") := by
      rw [hp]
      decide
    have hdes : ¬ d.position = "Designer" := by
      rw [hp]
      decide
    refine ⟨?_, ?_, ?_⟩
    · rw [if_neg (fun hc => hdev hc.1)]
      simp
    · rw [if_neg (fun hc => hdes hc.1)]
      simp
    · rw [← truthy_eq_false_iff]
      by_cases hm : truthy (trim d.managementExperience) = false
      · simp [hp, hm]
      · simp [hp, hm]

/-- The position of a draft can be Manager with stale values in the fields of
the other positions. -/
theorem C1_conditional_keys_witness :
    Field.managementExperience ∈
      (validationErrors { initialFormData with
        position := "Manager", portfolioUrl := "stale", relevantExperience := "-3" }).keys :=
  ((C1_conditional_keys _).2.2.2.2 rfl).2.2.mpr (by decide)

/-! ## The empty draft -/

/-- C9: for the initial draft (every scalar field empty, no position, no skill)
the keys of the errors are exactly `fullName`, `email`, `phoneNumber`,
`additionalSkills`, `preferredInterviewTime`: the five unconditional rules all
fire and no position-conditional key is present. -/
theorem C9_initial_keys :
    (validationErrors initialFormData).keys =
      [.fullName, .email, .phoneNumber, .additionalSkills, .preferredInterviewTime] ∧
    (∀ k : Field, k ∈ (validationErrors initialFormData).keys ↔
      k = .fullName ∨ k = .email ∨ k = .phoneNumber ∨ k = .additionalSkills ∨
        k = .preferredInterviewTime) := by
  have h : (validationErrors initialFormData).keys =
      [.fullName, .email, .phoneNumber, .additionalSkills, .preferredInterviewTime] := by
    decide
  refine ⟨h, ?_⟩
  intro k
  rw [h]
  simp

/-! ## Skill toggles -/

theorem handleSkillChange_off_skills (v : String) (d : FormData) :
    (handleSkillChange v false d).additionalSkills =
      d.additionalSkills.filter (fun skill => skill != v) := by
  simp [handleSkillChange]

theorem filter_ne_eq_self (v : String) (l : List String) (h : v ∉ l) :
    l.filter (fun skill => skill != v) = l := by
  rw [List.filter_eq_self]
  intro a ha
  have : a ≠ v := fun hav => h (hav ▸ ha)
  simpa using this

/-- C10: toggling a skill off leaves no occurrence of it in `additionalSkills`,
keeps every other entry in its original relative order (the result is a
sublist with the same number of occurrences of every other skill), and changes
no other field; the draft is unchanged exactly when the skill was not there. -/
theorem C10_toggle_off_frame (d : FormData) (v : String) :
    v ∉ (handleSkillChange v false d).additionalSkills ∧
    (handleSkillChange v false d).additionalSkills.Sublist d.additionalSkills ∧
    (∀ w, w ≠ v →
      (handleSkillChange v false d).additionalSkills.count w = d.additionalSkills.count w) ∧
    ((handleSkillChange v false d).fullName = d.fullName ∧
      (handleSkillChange v false d).email = d.email ∧
      (handleSkillChange v false d).phoneNumber = d.phoneNumber ∧
      (handleSkillChange v false d).position = d.position ∧
      (handleSkillChange v false d).relevantExperience = d.relevantExperience ∧
      (handleSkillChange v false d).portfolioUrl = d.portfolioUrl ∧
      (handleSkillChange v false d).managementExperience = d.managementExperience ∧
      (handleSkillChange v false d).preferredInterviewTime = d.preferredInterviewTime) ∧
    (v ∉ d.additionalSkills ↔ handleSkillChange v false d = d) := by
  refine ⟨?_, ?_, ?_, ?_, ?_⟩
  · rw [handleSkillChange_off_skills]
    simp [List.mem_filter]
  · rw [handleSkillChange_off_skills]
    exact List.filter_sublist _
  · intro w hw
    rw [handleSkillChange_off_skills, List.count_filter]
    simpa using hw
  · simp [handleSkillChange]
  · constructor
    · intro h
      cases d with
      | mk a b c e f g i skills j =>
        simp only [handleSkillChange, Bool.false_eq_true, if_false, FormData.mk.injEq,
          true_and, and_true]
        exact filter_ne_eq_self v skills h
    · intro h hv
      have h1 : v ∈ (handleSkillChange v false d).additionalSkills := by
        rw [h]
        exact hv
      rw [handleSkillChange_off_skills] at h1
      simp [List.mem_filter] at h1

/-- The same catalog skill toggled on twice is present twice, and the second
toggle changes the draft. -/
theorem C7_counterexample :
    handleSkillChange "React" true (handleSkillChange "React" true initialFormData) ≠
      handleSkillChange "React" true initialFormData ∧
    (handleSkillChange "React" true
      (handleSkillChange "React" true initialFormData)).additionalSkills.count "React" = 2 := by
  decide

/-- C7, amended: toggling a skill off is idempotent for every draft and skill.
Toggling a skill on appends the skill to `additionalSkills` without looking
whether it is present and changes nothing else, so it adds one occurrence every
time and leaves the skill present exactly once when it was not present before;
the form emits a toggle-on of a skill exactly when the skill is in the catalog
and not selected. -/
theorem C7_toggle (d : FormData) (v : String) :
    handleSkillChange v false (handleSkillChange v false d) = handleSkillChange v false d ∧
    handleSkillChange v true d = { d with additionalSkills := d.additionalSkills ++ [v] } ∧
    (handleSkillChange v true d).additionalSkills.count v = d.additionalSkills.count v + 1 ∧
    (v ∉ d.additionalSkills →
      (handleSkillChange v true d).additionalSkills.count v = 1) ∧
    (emittable d (Event.skill v true) = true ↔ v ∈ skills ∧ v ∉ d.additionalSkills) := by
  refine ⟨?_, ?_, ?_, ?_, ?_⟩
  · cases d with
    | mk a b c e f g i skills j =>
      simp only [handleSkillChange, Bool.false_eq_true, if_false, List.filter_filter,
        Bool.and_self]
  · simp [handleSkillChange]
  · simp [handleSkillChange, List.count_append]
  · intro h
    simp [handleSkillChange, List.count_append, List.count_eq_zero.mpr h]
  · simp [emittable, checkboxChecked]

/-- The toggles of C7 at a concrete draft: `CSS` is not selected in the
end-to-end draft. -/
theorem C7_toggle_witness :
    (handleSkillChange "CSS" true janeDoe).additionalSkills.count "CSS" = 1 :=
  (C7_toggle janeDoe "CSS").2.2.2.1 (by decide)

/-! ## Reachable drafts -/

theorem handleChange_skills (name : ScalarField) (value : String) (d : FormData) :
    (handleChange name value d).additionalSkills = d.additionalSkills := by
  cases name <;> rfl

theorem step_preserves (d : FormData) (e : Event) (he : emittable d e = true)
    (hn : d.additionalSkills.Nodup) (hs : ∀ s ∈ d.additionalSkills, s ∈ skills) :
    (step d e).additionalSkills.Nodup ∧ ∀ s ∈ (step d e).additionalSkills, s ∈ skills := by
  cases e with
  | change name value =>
    simp only [step, handleChange_skills]
    exact ⟨hn, hs⟩
  | skill value checked =>
    simp only [emittable, Bool.and_eq_true, beq_iff_eq] at he
    obtain ⟨hcat0, hchk⟩ := he
    have hcat : value ∈ skills := by simpa using hcat0
    cases checked with
    | false =>
      simp only [step, handleSkillChange_off_skills]
      refine ⟨hn.filter _, ?_⟩
      intro s hs1
      exact hs s (List.mem_filter.mp hs1).1
    | true =>
      have hnot : value ∉ d.additionalSkills := by
        intro hmem
        have : checkboxChecked d value = true := by
          simpa [checkboxChecked] using hmem
        rw [this] at hchk
        cases hchk
      simp only [step, handleSkillChange, if_true]
      constructor
      · rw [List.nodup_append]
        refine ⟨hn, List.nodup_singleton value, ?_⟩
        intro a ha hb
        rw [List.mem_singleton] at hb
        exact hnot (hb ▸ ha)
      · intro s hs1
        rcases List.mem_append.mp hs1 with h | h
        · exact hs s h
        · rw [List.mem_singleton] at h
          rw [h]
          exact hcat

theorem run_preserves (events : List Event) :
    ∀ d : FormData, allEmittable d events = true → d.additionalSkills.Nodup →
      (∀ s ∈ d.additionalSkills, s ∈ skills) →
      (run d events).additionalSkills.Nodup ∧
        ∀ s ∈ (run d events).additionalSkills, s ∈ skills := by
  induction events with
  | nil => intro d _ hn hs; exact ⟨hn, hs⟩
  | cons e es ih =>
    intro d h hn hs
    simp only [allEmittable, Bool.and_eq_true] at h
    have hstep := step_preserves d e h.1 hn hs
    exact ih (step d e) h.2 hstep.1 hstep.2

/-- Two calls of `handleSkillChange` with the catalog skill `JavaScript` and
`checked = true` reach a draft with a duplicate. -/
theorem C8_counterexample :
    (∀ e ∈ doubleToggleOn, e = Event.skill "JavaScript" true) ∧ "JavaScript" ∈ skills ∧
    (run initialFormData doubleToggleOn).additionalSkills = ["JavaScript", "JavaScript"] ∧
    ¬ (run initialFormData doubleToggleOn).additionalSkills.Nodup := by
  decide

/-- C8, amended: in every draft reached from the initial one by events the
form emits (scalar field changes, and skill toggles of a catalog skill whose
`checked` value is the opposite of the skill being selected, as a click on its
checkbox sends), `additionalSkills` has no duplicates and only catalog values. -/
theorem C8_reachable_invariant (events : List Event)
    (h : allEmittable initialFormData events = true) :
    (run initialFormData events).additionalSkills.Nodup ∧
      ∀ s ∈ (run initialFormData events).additionalSkills, s ∈ skills :=
  run_preserves events initialFormData h List.nodup_nil (fun _ hs => absurd hs (List.not_mem_nil _))

/-- The invariant on a concrete session of the form. -/
theorem C8_reachable_invariant_witness :
    allEmittable initialFormData sampleSession = true ∧
    (run initialFormData sampleSession).additionalSkills = ["CSS"] ∧
    (run initialFormData sampleSession).additionalSkills.Nodup :=
  ⟨by decide, by decide, (C8_reachable_invariant sampleSession (by decide)).1⟩

/-! ## Submission -/

/-- C6: a submit leaves the draft unchanged and stores the errors computed from
it; it shows the summary when there are no errors and leaves the summary flag
as it was when there are some.  The end-to-end draft (the fields its example
does not list left empty) has no errors, so submitting it shows the summary. -/
theorem C6_submit (s : State) :
    (handleSubmit s).formData = s.formData ∧
    (handleSubmit s).errors = validationErrors s.formData ∧
    (validationErrors s.formData = [] → (handleSubmit s).showSummary = true) ∧
    (validationErrors s.formData ≠ [] → (handleSubmit s).showSummary = s.showSummary) ∧
    (validationErrors janeDoe = [] ∧
      (s.formData = janeDoe → (handleSubmit s).showSummary = true)) := by
  have hj : validationErrors janeDoe = [] := by decide
  have hempty : ∀ m : ErrorMap, (m.keys.length == 0) = true ↔ m = [] := by
    intro m
    cases m <;> simp [ErrorMap.keys]
  have hshow : validationErrors s.formData = [] → (handleSubmit s).showSummary = true := by
    intro h
    simp [handleSubmit, validate, h, ErrorMap.keys]
  refine ⟨?_, ?_, hshow, ?_, hj, ?_⟩
  · by_cases hc : ((validationErrors s.formData).keys.length == 0) = true <;>
      simp [handleSubmit, validate, hc]
  · by_cases hc : ((validationErrors s.formData).keys.length == 0) = true <;>
      simp [handleSubmit, validate, hc]
  · intro h
    have hne : ¬ ((validationErrors s.formData).keys.length == 0) = true :=
      fun hc => h ((hempty _).mp hc)
    simp [handleSubmit, validate, hne]
  · intro h
    exact hshow (h ▸ hj)

/-- Submitting the end-to-end draft from the state with that draft, no errors
shown yet and the summary hidden. -/
theorem C6_submit_witness :
    handleSubmit { formData := janeDoe, errors := [], showSummary := false } =
      { formData := janeDoe, errors := [], showSummary := true } := by
  have h := C6_submit { formData := janeDoe, errors := [], showSummary := false }
  have h1 := h.1
  have h2 := h.2.1
  have h3 := h.2.2.2.2.2 rfl
  have h4 := h.2.2.2.2.1
  generalize handleSubmit { formData := janeDoe, errors := [], showSummary := false } = t at *
  cases t
  simp only at h1 h2 h3
  rw [h1, h2, h3, h4]

/-! ## Conversion of numeric strings -/

theorem digitChar_spec : ∀ d : Fin 10,
    isDigit (digitChar d) = true ∧ isWhiteSpace (digitChar d) = false ∧
    digitValue 10 (digitChar d) = some d.val ∧ digitChar d ≠ '+' ∧ digitChar d ≠ '-' ∧
    digitChar d ≠ '.' ∧ (digitChar d = '0' → d = 0) := by
  decide

theorem digitsValue_foldl (ds : List (Fin 10)) : ∀ acc : Nat,
    (ds.map digitChar).foldl
      (fun acc c => match acc, digitValue 10 c with
        | some n, some d => some (10 * n + d)
        | _, _ => none)
      (some acc) = some (ds.foldl (fun a d => 10 * a + d.val) acc) := by
  induction ds with
  | nil => intro acc; rfl
  | cons d ds ih =>
    intro acc
    simp only [List.map_cons, List.foldl_cons, (digitChar_spec d).2.2.1]
    exact ih _

theorem digitsValue_digits (ds : List (Fin 10)) (h : ds ≠ []) :
    digitsValue 10 (ds.map digitChar) = some (digitsNat ds) := by
  cases ds with
  | nil => exact absurd rfl h
  | cons d ds =>
    have := digitsValue_foldl (d :: ds) 0
    simpa [digitsValue, digitsNat] using this

theorem takeWhile_digits (ds : List (Fin 10)) (rest : List Char)
    (h : ∀ c ∈ rest.head?, isDigit c = false) :
    (ds.map digitChar ++ rest).takeWhile isDigit = ds.map digitChar := by
  induction ds with
  | nil =>
    cases rest with
    | nil => rfl
    | cons c cs =>
      have hc : isDigit c = false := h c (by simp)
      simp [List.takeWhile_cons, hc]
  | cons d ds ih =>
    simp [List.takeWhile_cons, (digitChar_spec d).1, ih]

theorem dropWhile_digits (ds : List (Fin 10)) (rest : List Char)
    (h : ∀ c ∈ rest.head?, isDigit c = false) :
    (ds.map digitChar ++ rest).dropWhile isDigit = rest := by
  induction ds with
  | nil =>
    cases rest with
    | nil => rfl
    | cons c cs =>
      have hc : isDigit c = false := h c (by simp)
      simp [List.dropWhile_cons, hc]
  | cons d ds ih =>
    simp [List.dropWhile_cons, (digitChar_spec d).1, ih]

theorem roundsToZero_eq_false_iff (m : Nat) (e : Int) :
    roundsToZero m e = false ↔ IsPositiveNumber ((m : ℚ) * (10 : ℚ) ^ e) := by
  have hP : (0 : ℚ) < (2 : ℚ) ^ 1075 := by positivity
  unfold roundsToZero IsPositiveNumber
  by_cases hm : m = 0
  · subst hm
    have h0 : ¬ (1 / (2 : ℚ) ^ 1075 < 0) := not_lt.mpr (by positivity)
    refine iff_of_false ?_ ?_
    · rw [show ((0 : Nat) == 0) = true from rfl, Bool.true_or]
      exact Bool.noConfusion
    · rw [Nat.cast_zero, zero_mul]
      exact h0
  · have hm0 : (1 : ℚ) ≤ (m : ℚ) := by exact_mod_cast Nat.one_le_iff_ne_zero.mpr hm
    have hmb : (m == 0) = false := by simpa using hm
    rw [hmb, Bool.false_or]
    cases e with
    | ofNat k =>
      have h1 : ¬ ((Int.ofNat k) < 0) := by simp
      have h2 : (1 : ℚ) ≤ (10 : ℚ) ^ k := one_le_pow₀ (by norm_num)
      have h3 : 1 / (2 : ℚ) ^ 1075 < 1 := by
        rw [div_lt_one hP]
        exact one_lt_pow₀ (by norm_num) (by norm_num)
      have h4 : (1 : ℚ) ≤ (m : ℚ) * (10 : ℚ) ^ k := by
        calc (1 : ℚ) = 1 * 1 := by ring
          _ ≤ (m : ℚ) * (10 : ℚ) ^ k := mul_le_mul hm0 h2 (by norm_num) (by positivity)
      refine iff_of_true ?_ ?_
      · rw [decide_eq_false h1, Bool.false_and]
      · rw [Int.ofNat_eq_coe, zpow_natCast]
        exact lt_of_lt_of_le h3 h4
    | negSucc k =>
      have h1 : Int.negSucc k < 0 := Int.negSucc_lt_zero k
      have hT : (0 : ℚ) < (10 : ℚ) ^ (k + 1) := by positivity
      simp only [h1, decide_True, Bool.true_and, Int.natAbs_negSucc, Nat.succ_eq_add_one,
        decide_eq_false_iff_not, not_le, zpow_negSucc]
      rw [← div_eq_mul_inv, div_lt_div_iff₀ hP hT, one_mul]
      have hcast : ((10 ^ (k + 1) : ℕ) : ℚ) < ((m * 2 ^ 1075 : ℕ) : ℚ) ↔
          (10 : ℚ) ^ (k + 1) < (m : ℚ) * (2 : ℚ) ^ 1075 := by
        rw [Nat.cast_mul, Nat.cast_pow, Nat.cast_pow, Nat.cast_ofNat, Nat.cast_ofNat]
      rw [← hcast]
      exact Nat.cast_lt.symm

theorem exponent_head (e : Exponent) : ∀ c ∈ e.chars.head?, isDigit c = false := by
  intro c hc
  cases h : e.upper <;> simp [Exponent.chars, h] at hc <;> subst hc <;> decide

theorem parseExponent_chars (e : Exponent) (h : e.digits ≠ []) :
    parseExponent e.chars = some e.value := by
  obtain ⟨upper, sign, ds⟩ := e
  simp only at h
  have hv := digitsValue_digits ds h
  have hletter : ((if upper = true then 'E' else 'e') == 'e' ||
      (if upper = true then 'E' else 'e') == 'E') = true := by
    cases upper <;> decide
  cases sign with
  | plus =>
    simp only [Exponent.chars, parseExponent, hletter, if_true, List.singleton_append, hv,
      Exponent.value, Option.map]
  | minus =>
    simp only [Exponent.chars, parseExponent, hletter, if_true, List.singleton_append, hv,
      Exponent.value, Option.map]
  | unsigned =>
    cases ds with
    | nil => exact absurd rfl h
    | cons d ds1 =>
      simp only [Exponent.chars, parseExponent, hletter, if_true, List.nil_append,
        List.map_cons, Exponent.value]
      split
      · rename_i heq
        simp only [List.cons.injEq] at heq
        exact absurd heq.1 (digitChar_spec d).2.2.2.1
      · rename_i heq
        simp only [List.cons.injEq] at heq
        exact absurd heq.1 (digitChar_spec d).2.2.2.2.1
      · rw [← List.map_cons, hv]
        rfl

theorem expChars_head (ex : Option Exponent) :
    expChars ex = [] ∨ ∃ xs, expChars ex = 'e' :: xs ∨ expChars ex = 'E' :: xs := by
  cases ex with
  | none => exact Or.inl rfl
  | some e =>
    right
    cases h : e.upper
    · exact ⟨_, Or.inl (by rw [expChars, Exponent.chars, h]; rfl)⟩
    · exact ⟨_, Or.inr (by rw [expChars, Exponent.chars, h]; rfl)⟩

theorem parseExponent_expChars (n : Numeral) (h : n.wellFormed = true) :
    parseExponent (expChars n.exponent) = some (expValue n.exponent) := by
  obtain ⟨neg, ip, fp, ex⟩ := n
  cases ex with
  | none => rfl
  | some e =>
    have hd : e.digits ≠ [] := by
      intro hnil
      simp [Numeral.wellFormed, hnil] at h
    exact parseExponent_chars e hd

theorem parseUnsignedDecimal_parts (ip fp : List (Fin 10)) (X : List Char) (ev : Int)
    (hne : ip ≠ [] ∨ fp ≠ [])
    (hX : X = [] ∨ ∃ xs, X = 'e' :: xs ∨ X = 'E' :: xs)
    (hE : parseExponent X = some ev) :
    parseUnsignedDecimal (ip.map digitChar ++ (fracChars fp ++ X)) =
      some (digitsNat (ip ++ fp), ev - Int.ofNat fp.length) := by
  have hXd : ∀ c ∈ X.head?, isDigit c = false := by
    intro c hc
    rcases hX with rfl | ⟨xs, rfl | rfl⟩
    · simp at hc
    · simp only [List.head?_cons, Option.mem_def, Option.some.injEq] at hc
      subst hc
      decide
    · simp only [List.head?_cons, Option.mem_def, Option.some.injEq] at hc
      subst hc
      decide
  cases fp with
  | nil =>
    have hip : ip ≠ [] := by
      rcases hne with h | h
      · exact h
      · exact absurd rfl h
    have hemp : ((ip.map digitChar).isEmpty && ([] : List Char).isEmpty) = false := by
      cases ip with
      | nil => exact absurd rfl hip
      | cons d ds => rfl
    have hfrac : fracChars [] = [] := rfl
    rw [hfrac, List.nil_append]
    unfold parseUnsignedDecimal
    simp only [takeWhile_digits ip X hXd, dropWhile_digits ip X hXd]
    have hemp2 : (ip.map digitChar).isEmpty = false := by
      cases ip with
      | nil => exact absurd rfl hip
      | cons d ds => rfl
    rcases hX with rfl | ⟨xs, rfl | rfl⟩ <;>
      simp [hemp2, hE, digitsValue_digits ip hip]
  | cons f fs =>
    have hdot : ∀ c ∈ ('.' :: ((f :: fs).map digitChar ++ X)).head?, isDigit c = false := by
      intro c hc
      simp only [List.head?_cons, Option.mem_def, Option.some.injEq] at hc
      subst hc
      decide
    have hfrac : fracChars (f :: fs) ++ X = '.' :: ((f :: fs).map digitChar ++ X) := by
      simp [fracChars]
    have hemp : ((ip.map digitChar).isEmpty && ((f :: fs).map digitChar).isEmpty) = false := by
      simp
    have hall : ip.map digitChar ++ (f :: fs).map digitChar =
        (ip ++ f :: fs).map digitChar := by simp
    have hne2 : ip ++ f :: fs ≠ [] := by simp
    rw [hfrac]
    unfold parseUnsignedDecimal
    simp only [takeWhile_digits ip _ hdot, dropWhile_digits ip _ hdot,
      takeWhile_digits (f :: fs) X hXd, dropWhile_digits (f :: fs) X hXd, hE, hemp,
      Bool.false_eq_true, if_false, hall, digitsValue_digits _ hne2, Option.getD_some,
      List.length_map]

theorem parseUnsignedDecimal_body (n : Numeral) (h : n.wellFormed = true) :
    parseUnsignedDecimal n.body =
      some (digitsNat (n.intDigits ++ n.fracDigits), n.scale) := by
  have hne : n.intDigits ≠ [] ∨ n.fracDigits ≠ [] := by
    have h1 := h
    simp only [Numeral.wellFormed, Bool.and_eq_true, Bool.or_eq_true] at h1
    rcases h1.1 with h2 | h2
    · left
      intro hnil
      rw [hnil] at h2
      exact absurd h2 (by decide)
    · right
      intro hnil
      rw [hnil] at h2
      exact absurd h2 (by decide)
  exact parseUnsignedDecimal_parts n.intDigits n.fracDigits (expChars n.exponent)
    (expValue n.exponent) hne (expChars_head n.exponent) (parseExponent_expChars n h)

theorem digitChar_literal : ∀ d : Fin 10,
    digitChar d = '0' ∨ digitChar d = '1' ∨ digitChar d = '2' ∨ digitChar d = '3' ∨
    digitChar d = '4' ∨ digitChar d = '5' ∨ digitChar d = '6' ∨ digitChar d = '7' ∨
    digitChar d = '8' ∨ digitChar d = '9' := by
  decide

theorem digits_last (ds : List (Fin 10)) (h : ds ≠ []) :
    ∃ A d, ds.map digitChar = A ++ [digitChar d] := by
  rcases List.eq_nil_or_concat ds with hnil | ⟨L, b, rfl⟩
  · exact absurd hnil h
  · exact ⟨L.map digitChar, b, by simp⟩

theorem body_head (n : Numeral) (h : n.wellFormed = true) :
    ∃ c rest, n.body = c :: rest ∧ (c = '.' ∨ ∃ d, c = digitChar d) := by
  obtain ⟨neg, ip, fp, ex⟩ := n
  cases ip with
  | cons d ds => exact ⟨digitChar d, _, rfl, Or.inr ⟨d, rfl⟩⟩
  | nil =>
    cases fp with
    | nil => simp [Numeral.wellFormed] at h
    | cons f fs =>
      exact ⟨'.', (f :: fs).map digitChar ++ expChars ex, by simp [Numeral.body, fracChars],
        Or.inl rfl⟩

theorem body_last (n : Numeral) (h : n.wellFormed = true) :
    ∃ A d, n.body = A ++ [digitChar d] := by
  obtain ⟨neg, ip, fp, ex⟩ := n
  cases ex with
  | some e =>
    have hd : e.digits ≠ [] := by
      intro hnil
      simp [Numeral.wellFormed, hnil] at h
    obtain ⟨A, d, hA⟩ := digits_last e.digits hd
    refine ⟨ip.map digitChar ++ (fracChars fp ++ ((if e.upper then 'E' else 'e') ::
      ((match e.sign with
        | .unsigned => []
        | .plus => ['+']
        | .minus => ['-']) ++ A))), d, ?_⟩
    simp [Numeral.body, expChars, Exponent.chars, hA]
  | none =>
    cases fp with
    | cons f fs =>
      obtain ⟨A, d, hA⟩ := digits_last (f :: fs) (List.cons_ne_nil f fs)
      refine ⟨ip.map digitChar ++ ('.' :: A), d, ?_⟩
      simp only [Numeral.body, fracChars, expChars, List.isEmpty_cons, Bool.false_eq_true,
        if_false, hA, List.append_nil, List.append_assoc, List.cons_append]
    | nil =>
      have hip : ip ≠ [] := by
        intro hnil
        simp [Numeral.wellFormed, hnil] at h
      obtain ⟨A, d, hA⟩ := digits_last ip hip
      exact ⟨A, d, by simp [Numeral.body, fracChars, expChars, hA]⟩

theorem trimChars_of_ends (c l : Char) (rest A : List Char) (h : c :: rest = A ++ [l])
    (hc : isWhiteSpace c = false) (hl : isWhiteSpace l = false) :
    trimChars (c :: rest) = c :: rest := by
  unfold trimChars
  rw [List.dropWhile_cons, hc]
  simp only [Bool.false_eq_true, if_false]
  rw [h, List.reverse_append, List.reverse_singleton, List.singleton_append,
    List.dropWhile_cons, hl]
  simp

theorem body_chars (n : Numeral) :
    ∀ c ∈ n.body,
      isDigit c = true ∨ c = '.' ∨ c = 'e' ∨ c = 'E' ∨ c = '+' ∨ c = '-' := by
  have hdig : ∀ (ds : List (Fin 10)) (c : Char), c ∈ ds.map digitChar → isDigit c = true := by
    intro ds c hc
    obtain ⟨d, _, rfl⟩ := List.mem_map.mp hc
    exact (digitChar_spec d).1
  intro c hc
  obtain ⟨neg, ip, fp, ex⟩ := n
  simp only [Numeral.body, List.mem_append] at hc
  rcases hc with hc | hc | hc
  · exact Or.inl (hdig ip c hc)
  · unfold fracChars at hc
    split at hc
    · cases hc
    · rcases List.mem_cons.mp hc with rfl | hc
      · exact Or.inr (Or.inl rfl)
      · exact Or.inl (hdig fp c hc)
  · cases ex with
    | none => cases hc
    | some e =>
      obtain ⟨upper, sign, ds⟩ := e
      have hmem : c = 'e' ∨ c = 'E' ∨ c = '+' ∨ c = '-' ∨ c ∈ ds.map digitChar := by
        cases upper <;> cases sign <;>
          simp only [expChars, Exponent.chars, List.mem_cons, List.mem_append,
            List.nil_append, List.singleton_append, if_true, Bool.false_eq_true, if_false,
            List.not_mem_nil, false_or] at hc <;>
          tauto
      have hd : c ∈ ds.map digitChar → isDigit c = true := hdig ds c
      tauto

theorem not_radix (x : Char)
    (h : isDigit x = true ∨ x = '.' ∨ x = 'e' ∨ x = 'E' ∨ x = '+' ∨ x = '-') :
    (x == 'b' || x == 'B') = false ∧ (x == 'o' || x == 'O') = false ∧
      (x == 'x' || x == 'X') = false := by
  rcases h with h | rfl | rfl | rfl | rfl | rfl
  · have hne : ∀ y : Char, isDigit y = false → (x == y) = false := by
      intro y hy
      rw [beq_eq_false_iff_ne]
      rintro rfl
      rw [h] at hy
      cases hy
    refine ⟨?_, ?_, ?_⟩ <;> rw [Bool.or_eq_false_iff] <;>
      exact ⟨hne _ (by decide), hne _ (by decide)⟩
  all_goals decide

theorem parseNonDecimal_body (n : Numeral) (neg : Bool) :
    parseNonDecimal ((if neg then ['-'] else []) ++ n.body) = none := by
  cases neg with
  | true =>
    simp only [if_true, List.singleton_append]
    unfold parseNonDecimal
    split
    · rename_i heq
      simp only [List.cons.injEq] at heq
      exact absurd heq.1 (by decide)
    · rfl
  | false =>
    simp only [Bool.false_eq_true, if_false, List.nil_append]
    unfold parseNonDecimal
    split
    · rename_i x ds heq
      have hx : x ∈ n.body := by
        rw [heq]
        simp
      obtain ⟨h1, h2, h3⟩ := not_radix x (body_chars n x hx)
      simp only [h1, h2, h3, Bool.false_eq_true, if_false]
    · rfl

theorem stringToNumber_of_parts (neg : Bool) (c l : Char) (rest A : List Char) (m : Nat)
    (e : Int) (hl : c :: rest = A ++ [l]) (hlw : isWhiteSpace l = false)
    (hc : c = '.' ∨ c = '0' ∨ c = '1' ∨ c = '2' ∨ c = '3' ∨ c = '4' ∨ c = '5' ∨ c = '6' ∨
      c = '7' ∨ c = '8' ∨ c = '9')
    (hND : parseNonDecimal ((if neg then ['-'] else []) ++ c :: rest) = none)
    (hP : parseUnsignedDecimal (c :: rest) = some (m, e)) :
    stringToNumber ⟨(if neg then ['-'] else []) ++ c :: rest⟩ =
      if roundsToZero m e = true then JSNumber.zero
      else if neg = true then JSNumber.negative else JSNumber.positive := by
  have hcw : isWhiteSpace c = false := by
    rcases hc with rfl | rfl | rfl | rfl | rfl | rfl | rfl | rfl | rfl | rfl | rfl <;> decide
  cases neg with
  | false =>
    simp only [Bool.false_eq_true, if_false, List.nil_append] at hND ⊢
    have htrim := trimChars_of_ends c l rest A hl hcw hlw
    unfold stringToNumber
    simp only [htrim, hND]
    rcases hc with rfl | rfl | rfl | rfl | rfl | rfl | rfl | rfl | rfl | rfl | rfl <;>
      simp [hP]
  | true =>
    simp only [if_true, List.singleton_append] at hND ⊢
    have hl2 : '-' :: c :: rest = ('-' :: A) ++ [l] := by rw [hl]; rfl
    have htrim := trimChars_of_ends '-' l (c :: rest) ('-' :: A) hl2 (by decide) hlw
    unfold stringToNumber
    simp only [htrim, hND]
    rcases hc with rfl | rfl | rfl | rfl | rfl | rfl | rfl | rfl | rfl | rfl | rfl <;>
      simp [hP]

/-- The conversion of a numeric string, from its parts. -/
theorem stringToNumber_render (n : Numeral) (h : n.wellFormed = true) :
    stringToNumber n.render =
      if roundsToZero (digitsNat (n.intDigits ++ n.fracDigits)) n.scale = true then
        JSNumber.zero
      else if n.negative = true then JSNumber.negative else JSNumber.positive := by
  obtain ⟨c, rest, hb, hc⟩ := body_head n h
  obtain ⟨A, d, hl⟩ := body_last n h
  have hc2 : c = '.' ∨ c = '0' ∨ c = '1' ∨ c = '2' ∨ c = '3' ∨ c = '4' ∨ c = '5' ∨
      c = '6' ∨ c = '7' ∨ c = '8' ∨ c = '9' := by
    rcases hc with rfl | ⟨d1, rfl⟩
    · exact Or.inl rfl
    · exact Or.inr (digitChar_literal d1)
  have hP := parseUnsignedDecimal_body n h
  have hND := parseNonDecimal_body n n.negative
  rw [hb] at hl hP hND
  have key := stringToNumber_of_parts n.negative c (digitChar d) rest A _ _ hl
    (digitChar_spec d).2.1 hc2 hND hP
  unfold Numeral.render
  rw [hb]
  exact key

theorem truthy_render (n : Numeral) (h : n.wellFormed = true) : truthy n.render = true := by
  obtain ⟨c, rest, hb, _⟩ := body_head n h
  unfold truthy Numeral.render
  rw [hb]
  cases n.negative <;> rfl

/-- The conversion of a numeric string is greater than zero exactly when the
double nearest to the rational it denotes is. -/
theorem leZero_render_iff (n : Numeral) (h : n.wellFormed = true) :
    (stringToNumber n.render).leZero = false ↔ IsPositiveNumber n.value := by
  rw [stringToNumber_render n h]
  have hr := roundsToZero_eq_false_iff (digitsNat (n.intDigits ++ n.fracDigits)) n.scale
  have hx : (0 : ℚ) ≤ (digitsNat (n.intDigits ++ n.fracDigits) : ℚ) * (10 : ℚ) ^ n.scale := by
    positivity
  have hnonpos : ∀ q : ℚ, q ≤ 0 → ¬ IsPositiveNumber q := by
    intro q hq hpos
    unfold IsPositiveNumber at hpos
    have : (0 : ℚ) < 1 / (2 : ℚ) ^ 1075 := by positivity
    exact absurd (lt_trans this hpos) (not_lt.mpr hq)
  unfold Numeral.value
  cases hneg : n.negative with
  | true =>
    have hv : ¬ IsPositiveNumber ((if true = true then -1 else 1) *
        ((digitsNat (n.intDigits ++ n.fracDigits) : ℚ) * (10 : ℚ) ^ n.scale)) := by
      apply hnonpos
      rw [if_pos rfl]
      linarith
    refine iff_of_false ?_ hv
    cases roundsToZero (digitsNat (n.intDigits ++ n.fracDigits)) n.scale <;>
      simp [JSNumber.leZero]
  | false =>
    simp only [Bool.false_eq_true, if_false, one_mul]
    rw [← hr]
    cases roundsToZero (digitsNat (n.intDigits ++ n.fracDigits)) n.scale <;>
      simp [JSNumber.leZero]

/-- The error of `relevantExperience` for a numeric string. -/
theorem relevantExperience_numeral (d : FormData) (n : Numeral)
    (hp : d.position = "Developer" ∨ d.position = "Designer")
    (hwf : n.wellFormed = true) (hn : d.relevantExperience = n.render) :
    ((validationErrors d).get .relevantExperience = none ↔ IsPositiveNumber n.value) ∧
    (¬ IsPositiveNumber n.value →
      (validationErrors d).get .relevantExperience =
        some "Relevant Experience is required and must be greater than 0") := by
  have ht : ¬ truthy d.relevantExperience = false := by
    rw [hn, truthy_render n hwf]
    exact Bool.noConfusion
  have hiff := leZero_render_iff n hwf
  rw [get_relevantExperience, hn]
  rw [hn] at ht
  by_cases hpos : IsPositiveNumber n.value
  · have hle : ¬ (stringToNumber n.render).leZero = true := by
      rw [hiff.mpr hpos]
      exact Bool.noConfusion
    have hc : ¬ ((d.position = "Developer" ∨ d.position = "Designer") ∧
        (truthy n.render = false ∨ (stringToNumber n.render).leZero = true)) := by
      rintro ⟨_, h1 | h1⟩
      · exact ht h1
      · exact hle h1
    rw [if_neg hc]
    exact ⟨iff_of_true rfl hpos, fun h => absurd hpos h⟩
  · have hle : (stringToNumber n.render).leZero = true := by
      cases hv : (stringToNumber n.render).leZero
      · exact absurd (hiff.mp hv) hpos
      · rfl
    rw [if_pos ⟨hp, Or.inr hle⟩]
    exact ⟨iff_of_false (by simp) hpos, fun _ => rfl⟩

theorem tiny_not_positive : ¬ IsPositiveNumber tinyNumeral.value := by
  have h8 : ∀ k : Nat, 2 ^ (3 * k) ≤ 10 ^ k := by
    intro k
    rw [pow_mul]
    exact Nat.pow_le_pow_left (by norm_num) k
  have hmono : ∀ a b : Nat, a ≤ b → 2 ^ a ≤ 2 ^ b :=
    fun a b hab => Nat.pow_le_pow_right (by norm_num) hab
  have h : 1 * 2 ^ 1075 ≤ 10 ^ 400 := by
    rw [Nat.one_mul]
    exact le_trans (hmono 1075 (3 * 400) (by norm_num)) (h8 400)
  have hr : roundsToZero 1 (-400) = true := by
    unfold roundsToZero
    have h2 : (-400 : Int).natAbs = 400 := rfl
    rw [h2, decide_eq_true h]
    rfl
  have hv : tinyNumeral.value = ((1 : Nat) : ℚ) * (10 : ℚ) ^ (-400 : Int) := by
    unfold Numeral.value
    have h1 : digitsNat (tinyNumeral.intDigits ++ tinyNumeral.fracDigits) = 1 := by decide
    have h2 : tinyNumeral.scale = -400 := by decide
    have h3 : tinyNumeral.negative = false := rfl
    rw [h1, h2, h3, if_neg Bool.false_ne_true, one_mul]
  rw [hv, ← roundsToZero_eq_false_iff, hr]
  exact Bool.noConfusion

/-! ## Relevant experience -/

theorem isPositiveNumber_of_ge (q : ℚ) (h : 1 / (10 : ℚ) ^ 240 ≤ q) : IsPositiveNumber q := by
  have h1 : ∀ k : Nat, ((10 : ℚ) ^ 3) ^ k ≤ ((2 : ℚ) ^ 10) ^ k :=
    fun k => pow_le_pow_left₀ (by positivity) (by norm_num) k
  have h2 : ∀ a b : Nat, a < b → (2 : ℚ) ^ a < (2 : ℚ) ^ b :=
    fun a b hab => pow_lt_pow_right₀ (by norm_num) hab
  have e1 : 3 * 80 = 240 := by norm_num
  have hq : (10 : ℚ) ^ 240 < (2 : ℚ) ^ 1075 := by
    have h3 := h1 80
    rw [← pow_mul, ← pow_mul, e1] at h3
    exact lt_of_le_of_lt h3 (h2 (10 * 80) 1075 (by norm_num))
  unfold IsPositiveNumber
  exact lt_of_lt_of_le (one_div_lt_one_div_of_lt (by positivity) hq) h

theorem pos_of_isPositiveNumber (q : ℚ) (h : IsPositiveNumber q) : 0 < q := by
  unfold IsPositiveNumber at h
  have : (0 : ℚ) < 1 / (2 : ℚ) ^ 1075 := by positivity
  exact lt_trans this h

/-- With position Developer, the experience `1e-400` is a numeric string, is
present and denotes a number greater than 0, and the error is reported for it:
as a double it is zero. -/
theorem C2_counterexample :
    tinyDraft.position = "Developer" ∧
    tinyNumeral.wellFormed = true ∧
    tinyDraft.relevantExperience = tinyNumeral.render ∧
    tinyDraft.relevantExperience ≠ "" ∧
    0 < tinyNumeral.value ∧
    (validationErrors tinyDraft).get .relevantExperience =
      some "Relevant Experience is required and must be greater than 0" ∧
    ¬ ((validationErrors tinyDraft).get .relevantExperience = none ↔
        (tinyDraft.relevantExperience ≠ "" ∧ 0 < tinyNumeral.value)) := by
  have hpos : 0 < tinyNumeral.value := by
    unfold Numeral.value
    have h1 : digitsNat (tinyNumeral.intDigits ++ tinyNumeral.fracDigits) = 1 := by decide
    have h3 : tinyNumeral.negative = false := rfl
    rw [h1, h3, if_neg Bool.false_ne_true]
    positivity
  have herr := (relevantExperience_numeral tinyDraft tinyNumeral (Or.inl rfl) (by decide)
    (by decide)).2 tiny_not_positive
  refine ⟨by decide, by decide, by decide, by decide, hpos, herr, ?_⟩
  intro h
  have h2 := h.mpr ⟨by decide, hpos⟩
  rw [herr] at h2
  cases h2

/-- C2, amended: for a draft whose position is Developer or Designer and whose
`relevantExperience` is empty or a numeric string, no `relevantExperience` error
is reported exactly when the field is non-empty and its value as a Number, the
double nearest to the number the string denotes, is greater than 0: that is
when the number denoted exceeds `2 ^ (-1075)`, which for a denoted number that
is at most 0 or at least `10 ^ (-240)` is to say that it is greater than 0.
Otherwise the message "Relevant Experience is required and must be greater than
0" is reported.  `0` and `-1` are invalid, `1` is valid. -/
theorem C2_relevantExperience (d : FormData)
    (hp : d.position = "Developer" ∨ d.position = "Designer") :
    (d.relevantExperience = "" →
      (validationErrors d).get .relevantExperience =
        some "Relevant Experience is required and must be greater than 0") ∧
    (∀ n : Numeral, n.wellFormed = true → d.relevantExperience = n.render →
      ((validationErrors d).get .relevantExperience = none ↔ IsPositiveNumber n.value) ∧
      (¬ IsPositiveNumber n.value →
        (validationErrors d).get .relevantExperience =
          some "Relevant Experience is required and must be greater than 0") ∧
      (n.value ≤ 0 ∨ 1 / (10 : ℚ) ^ 240 ≤ n.value →
        ((validationErrors d).get .relevantExperience = none ↔ 0 < n.value))) ∧
    ((validationErrors d).get .relevantExperience ≠ none →
      (validationErrors d).get .relevantExperience =
        some "Relevant Experience is required and must be greater than 0") ∧
    (d.relevantExperience = "0" ∨ d.relevantExperience = "-1" →
      (validationErrors d).get .relevantExperience =
        some "Relevant Experience is required and must be greater than 0") ∧
    (d.relevantExperience = "1" → (validationErrors d).get .relevantExperience = none) := by
  refine ⟨?_, ?_, ?_, ?_, ?_⟩
  · intro h
    have ht : truthy d.relevantExperience = false := (truthy_eq_false_iff _).mpr h
    rw [get_relevantExperience, if_pos ⟨hp, Or.inl ht⟩]
  · intro n hwf hn
    obtain ⟨h1, h2⟩ := relevantExperience_numeral d n hp hwf hn
    refine ⟨h1, h2, ?_⟩
    intro hrange
    rw [h1]
    constructor
    · exact pos_of_isPositiveNumber n.value
    · intro hpos
      rcases hrange with hle | hge
      · exact absurd hpos (not_lt.mpr hle)
      · exact isPositiveNumber_of_ge n.value hge
  · intro h
    rw [get_relevantExperience] at h ⊢
    split_ifs at h ⊢ with hc
    · rfl
    · exact absurd rfl h
  · intro h
    rw [get_relevantExperience]
    rcases h with h | h <;> rw [h] <;> simp only [hp, true_and] <;> decide
  · intro h
    rw [get_relevantExperience]
    rw [h]
    simp only [hp, true_and]
    decide

/-- A Developer draft with one and a half years of experience, written `1.5`,
has no `relevantExperience` error. -/
theorem C2_relevantExperience_witness :
    (validationErrors { initialFormData with
      position := "Developer", relevantExperience := "1.5" }).get .relevantExperience = none :=
  (((C2_relevantExperience { initialFormData with
      position := "Developer", relevantExperience := "1.5" } (Or.inl rfl)).2.1
    { negative := false, intDigits := [1], fracDigits := [5], exponent := none }
    (by decide) (by decide)).2.2
    (Or.inr (by
      unfold Numeral.value
      have h1 : digitsNat ([1] ++ [5] : List (Fin 10)) = 15 := by decide
      have h2 : Numeral.scale
          { negative := false, intDigits := [1], fracDigits := [5], exponent := none } =
          -1 := by decide
      simp only [h1, h2, Bool.false_eq_true, if_false, one_mul]
      have h3 : (1 : ℚ) ≤ ((15 : Nat) : ℚ) * (10 : ℚ) ^ (-1 : Int) := by norm_num
      have h4 : 1 / (10 : ℚ) ^ 240 ≤ 1 := by
        rw [div_le_one (by positivity)]
        exact one_le_pow₀ (by norm_num)
      exact le_trans h4 h3))).mpr (by
      unfold Numeral.value
      have h1 : digitsNat ([1] ++ [5] : List (Fin 10)) = 15 := by decide
      simp only [h1, Bool.false_eq_true, if_false, one_mul]
      positivity)

/-! ## Portfolio URL -/

/-- C5: for a Designer draft the portfolio URLs `example.com`,
`http://example.com/path?q=1` and `192.168.0.1:8080` get no error; `not a url`
and the empty string get "Portfolio URL is required and must be a valid URL";
and so does every value with a white-space character, since the pattern is
matched against the whole value and none of its classes accepts white space. -/
theorem C5_portfolioUrl (d : FormData) (hp : d.position = "Designer") :
    (d.portfolioUrl = "example.com" ∨ d.portfolioUrl = "http://example.com/path?q=1" ∨
        d.portfolioUrl = "192.168.0.1:8080" →
      (validationErrors d).get .portfolioUrl = none) ∧
    (d.portfolioUrl = "not a url" ∨ d.portfolioUrl = "" →
      (validationErrors d).get .portfolioUrl =
        some "Portfolio URL is required and must be a valid URL") ∧
    ((∃ c ∈ d.portfolioUrl.data, isWhiteSpace c = true) →
      (validationErrors d).get .portfolioUrl =
        some "Portfolio URL is required and must be a valid URL") := by
  refine ⟨?_, ?_, ?_⟩
  · intro h
    rw [get_portfolioUrl]
    rcases h with h | h | h <;> rw [h] <;> simp only [hp, true_and] <;> decide
  · intro h
    rw [get_portfolioUrl]
    rcases h with h | h <;> rw [h] <;> simp only [hp, true_and] <;> decide
  · rintro ⟨c, hc, hw⟩
    rw [get_portfolioUrl]
    exact if_pos ⟨hp, Or.inr (urlPattern_no_whiteSpace _ c hc hw)⟩

/-- A Designer draft whose portfolio URL is an address with a port. -/
theorem C5_portfolioUrl_witness :
    (validationErrors { initialFormData with
      position := "Designer", portfolioUrl := "192.168.0.1:8080" }).get .portfolioUrl = none :=
  (C5_portfolioUrl { initialFormData with
    position := "Designer", portfolioUrl := "192.168.0.1:8080" } rfl).1 (Or.inr (Or.inr rfl))

/-! ## Email -/

theorem matches_emailPattern_iff (u : List Char) :
    RE.Matches emailPattern u ↔ EmailShape u := by
  simp only [emailPattern, nonSpace, RE.matches_seq_iff, RE.matches_plus_cls_iff,
    RE.matches_chr_iff, EmailShape, not_eq_true_iff]
  constructor
  · rintro ⟨a, r1, rfl, ha, x1, r2, rfl, rfl, b, r3, rfl, hb, x2, c, rfl, rfl, hc⟩
    exact ⟨a, b, c, by simp, ha, hb, hc⟩
  · rintro ⟨a, b, c, rfl, ha, hb, hc⟩
    exact ⟨a, _, rfl, ha, _, _, rfl, rfl, b, _, rfl, hb, _, c, rfl, rfl, hc⟩

theorem emailPattern_test_iff (s : List Char) :
    emailPattern.test s = true ↔ ContainsEmailShape s := by
  simp only [RE.test_iff, matches_emailPattern_iff, ContainsEmailShape]

theorem not_blank_of_containsEmailShape (s : String) (h : ContainsEmailShape s.data) :
    ¬ Blank s := by
  obtain ⟨t, u, v, hs, a, b, c, rfl, ⟨ha, ha2⟩, _, _⟩ := h
  intro hb
  cases a with
  | nil => exact ha rfl
  | cons x xs =>
    have h1 := hb x (by rw [hs]; simp)
    have h2 := ha2 x (List.mem_cons_self x xs)
    rw [h1] at h2
    cases h2

/-- The email of a single space is not empty and no part of it has the email
shape, and the error reported for it is "Email is required", not "Email
address is invalid". -/
theorem C3_counterexample :
    blankEmailDraft.email ≠ "" ∧
    ¬ ContainsEmailShape blankEmailDraft.email.data ∧
    ¬ EmailShape blankEmailDraft.email.data ∧
    (validationErrors blankEmailDraft).get .email = some "Email is required" ∧
    (validationErrors blankEmailDraft).get .email ≠ some "Email address is invalid" := by
  have h1 : ¬ ContainsEmailShape blankEmailDraft.email.data := by
    rw [← emailPattern_test_iff]
    decide
  refine ⟨by decide, h1, ?_, by decide, by decide⟩
  intro h
  exact h1 ⟨[], _, [], by simp, h⟩

/-- C3, amended: no email error is reported exactly when some part of the email
has the shape one or more non-space characters, `@`, one or more non-space
characters, `.`, one or more non-space characters (the pattern is not anchored,
so anything may stand around that part); "Email is required" is reported
exactly when the email is empty after trimming, and "Email address is invalid"
exactly when it is not and no part of it has the shape.  `a@b.c` passes, `abc`
and `a@b` fail as invalid. -/
theorem C3_email (d : FormData) :
    ((validationErrors d).get .email = none ↔ ContainsEmailShape d.email.data) ∧
    ((validationErrors d).get .email = some "Email is required" ↔ Blank d.email) ∧
    ((validationErrors d).get .email = some "Email address is invalid" ↔
      ¬ Blank d.email ∧ ¬ ContainsEmailShape d.email.data) ∧
    (d.email = "a@b.c" → (validationErrors d).get .email = none) ∧
    (d.email = "abc" ∨ d.email = "a@b" →
      (validationErrors d).get .email = some "Email address is invalid") := by
  have hb : truthy (trim d.email) = false ↔ Blank d.email := blank_iff d.email
  have ht := emailPattern_test_iff d.email.data
  have hnb := not_blank_of_containsEmailShape d.email
  have hA : truthy (trim d.email) = false →
      (validationErrors d).get .email = some "Email is required" := by
    intro h
    rw [get_email, if_pos h]
  have hB : ¬ truthy (trim d.email) = false → emailPattern.test d.email.data = false →
      (validationErrors d).get .email = some "Email address is invalid" := by
    intro h1 h2
    rw [get_email, if_neg h1, if_pos h2]
  have hC : ¬ truthy (trim d.email) = false → ¬ emailPattern.test d.email.data = false →
      (validationErrors d).get .email = none := by
    intro h1 h2
    rw [get_email, if_neg h1, if_neg h2]
  have hshape : emailPattern.test d.email.data = false → ¬ ContainsEmailShape d.email.data := by
    intro h hc
    rw [ht.mpr hc] at h
    cases h
  refine ⟨?_, ?_, ?_, ?_, ?_⟩
  · by_cases h1 : truthy (trim d.email) = false
    · rw [hA h1]
      exact iff_of_false (by simp) (fun hc => hnb hc (hb.mp h1))
    · by_cases h2 : emailPattern.test d.email.data = false
      · rw [hB h1 h2]
        exact iff_of_false (by simp) (hshape h2)
      · rw [hC h1 h2]
        exact iff_of_true rfl (ht.mp (by simpa using h2))
  · by_cases h1 : truthy (trim d.email) = false
    · rw [hA h1]
      exact iff_of_true rfl (hb.mp h1)
    · by_cases h2 : emailPattern.test d.email.data = false
      · rw [hB h1 h2]
        exact iff_of_false (by decide) (fun h => h1 (hb.mpr h))
      · rw [hC h1 h2]
        exact iff_of_false (by simp) (fun h => h1 (hb.mpr h))
  · by_cases h1 : truthy (trim d.email) = false
    · rw [hA h1]
      exact iff_of_false (by decide) (fun h => h.1 (hb.mp h1))
    · by_cases h2 : emailPattern.test d.email.data = false
      · rw [hB h1 h2]
        exact iff_of_true rfl ⟨fun h => h1 (hb.mpr h), hshape h2⟩
      · rw [hC h1 h2]
        exact iff_of_false (by simp) (fun h => h.2 (ht.mp (by simpa using h2)))
  · intro h
    rw [get_email, h]
    decide
  · intro h
    rw [get_email]
    rcases h with h | h <;> rw [h] <;> decide

/-! ## Phone number -/

theorem isDigit_not_whiteSpace (c : Char) (h : isDigit c = true) : isWhiteSpace c = false := by
  simp only [isDigit, Bool.and_eq_true, decide_eq_true_eq] at h
  rw [Bool.eq_false_iff]
  intro hw
  simp only [isWhiteSpace, whiteSpaceCodes, List.contains_eq_any_beq, List.any_cons,
    List.any_nil, Bool.or_false, Bool.or_eq_true, beq_iff_eq] at hw
  omega

theorem phonePattern_matchAll_iff (s : List Char) :
    phonePattern.matchAll s = true ↔ s ≠ [] ∧ ∀ c ∈ s, isDigit c = true := by
  rw [RE.matchAll_iff, phonePattern, RE.matches_plus_cls_iff]

/-- The phone number of a single space is not the empty string, and the error
reported for it is "Phone Number is required". -/
theorem C4_counterexample :
    blankPhoneDraft.phoneNumber ≠ "" ∧
    (validationErrors blankPhoneDraft).get .phoneNumber = some "Phone Number is required" ∧
    ¬ ((validationErrors blankPhoneDraft).get .phoneNumber = some "Phone Number is required" ↔
        blankPhoneDraft.phoneNumber = "") := by
  decide

/-- C4, amended: "Phone Number is required" is reported exactly when the phone
number is empty after trimming (empty or all white space); "Phone Number must
be a valid number" exactly when it is not and some character is not a decimal
digit; no phone error exactly when the value is non-empty and every character
is a decimal digit.  `12a45` fails, `12345` passes. -/
theorem C4_phoneNumber (d : FormData) :
    ((validationErrors d).get .phoneNumber = some "Phone Number is required" ↔
      Blank d.phoneNumber) ∧
    ((validationErrors d).get .phoneNumber = some "Phone Number must be a valid number" ↔
      ¬ Blank d.phoneNumber ∧ ∃ c ∈ d.phoneNumber.data, isDigit c = false) ∧
    ((validationErrors d).get .phoneNumber = none ↔
      d.phoneNumber.data ≠ [] ∧ ∀ c ∈ d.phoneNumber.data, isDigit c = true) ∧
    (d.phoneNumber = "12a45" →
      (validationErrors d).get .phoneNumber = some "Phone Number must be a valid number") ∧
    (d.phoneNumber = "12345" → (validationErrors d).get .phoneNumber = none) := by
  have hb : truthy (trim d.phoneNumber) = false ↔ Blank d.phoneNumber := blank_iff d.phoneNumber
  have hm := phonePattern_matchAll_iff d.phoneNumber.data
  have hA : truthy (trim d.phoneNumber) = false →
      (validationErrors d).get .phoneNumber = some "Phone Number is required" := by
    intro h
    rw [get_phoneNumber, if_pos h]
  have hB : ¬ truthy (trim d.phoneNumber) = false →
      phonePattern.matchAll d.phoneNumber.data = false →
      (validationErrors d).get .phoneNumber = some "Phone Number must be a valid number" := by
    intro h1 h2
    rw [get_phoneNumber, if_neg h1, if_pos h2]
  have hC : ¬ truthy (trim d.phoneNumber) = false →
      ¬ phonePattern.matchAll d.phoneNumber.data = false →
      (validationErrors d).get .phoneNumber = none := by
    intro h1 h2
    rw [get_phoneNumber, if_neg h1, if_neg h2]
  have hne : ¬ Blank d.phoneNumber → d.phoneNumber.data ≠ [] := by
    intro h hnil
    apply h
    intro c hc
    rw [hnil] at hc
    cases hc
  have hdigits : d.phoneNumber.data ≠ [] → (∀ c ∈ d.phoneNumber.data, isDigit c = true) →
      ¬ Blank d.phoneNumber := by
    intro hnil hall hbl
    cases hs : d.phoneNumber.data with
    | nil => exact hnil hs
    | cons c cs =>
      have hc : c ∈ d.phoneNumber.data := by rw [hs]; exact List.mem_cons_self c cs
      have := isDigit_not_whiteSpace c (hall c hc)
      rw [hbl c hc] at this
      cases this
  have hnondigit : phonePattern.matchAll d.phoneNumber.data = false → ¬ Blank d.phoneNumber →
      ∃ c ∈ d.phoneNumber.data, isDigit c = false := by
    intro h2 hnb
    by_contra hex
    have hall : ∀ c ∈ d.phoneNumber.data, isDigit c = true := by
      intro c hc
      by_contra hd
      exact hex ⟨c, hc, by simpa using hd⟩
    rw [hm.mpr ⟨hne hnb, hall⟩] at h2
    cases h2
  have hall_of_match : ¬ phonePattern.matchAll d.phoneNumber.data = false →
      d.phoneNumber.data ≠ [] ∧ ∀ c ∈ d.phoneNumber.data, isDigit c = true := by
    intro h2
    exact hm.mp (by simpa using h2)
  refine ⟨?_, ?_, ?_, ?_, ?_⟩
  · by_cases h1 : truthy (trim d.phoneNumber) = false
    · rw [hA h1]
      exact iff_of_true rfl (hb.mp h1)
    · by_cases h2 : phonePattern.matchAll d.phoneNumber.data = false
      · rw [hB h1 h2]
        exact iff_of_false (by decide) (fun h => h1 (hb.mpr h))
      · rw [hC h1 h2]
        exact iff_of_false (by simp) (fun h => h1 (hb.mpr h))
  · by_cases h1 : truthy (trim d.phoneNumber) = false
    · rw [hA h1]
      exact iff_of_false (by decide) (fun h => h.1 (hb.mp h1))
    · have hnb : ¬ Blank d.phoneNumber := fun h => h1 (hb.mpr h)
      by_cases h2 : phonePattern.matchAll d.phoneNumber.data = false
      · rw [hB h1 h2]
        exact iff_of_true rfl ⟨hnb, hnondigit h2 hnb⟩
      · rw [hC h1 h2]
        refine iff_of_false (by simp) ?_
        rintro ⟨_, c, hc, hd⟩
        rw [(hall_of_match h2).2 c hc] at hd
        cases hd
  · by_cases h1 : truthy (trim d.phoneNumber) = false
    · rw [hA h1]
      exact iff_of_false (by simp) (fun h => hdigits h.1 h.2 (hb.mp h1))
    · by_cases h2 : phonePattern.matchAll d.phoneNumber.data = false
      · rw [hB h1 h2]
        refine iff_of_false (by simp) ?_
        intro h
        rw [hm.mpr h] at h2
        cases h2
      · rw [hC h1 h2]
        exact iff_of_true rfl (hall_of_match h2)
  · intro h
    rw [get_phoneNumber, h]
    decide
  · intro h
    rw [get_phoneNumber, h]
    decide

/-- The phone rule at a value with a letter in it. -/
theorem C4_phoneNumber_witness :
    (validationErrors { initialFormData with phoneNumber := "12a45" }).get .phoneNumber =
      some "Phone Number must be a valid number" :=
  (C4_phoneNumber { initialFormData with phoneNumber := "12a45" }).2.2.2.1 rfl

/-- The email rule at a value without a dot after the `@`. -/
theorem C3_email_witness :
    (validationErrors { initialFormData with email := "a@b" }).get .email =
      some "Email address is invalid" :=
  (C3_email { initialFormData with email := "a@b" }).2.2.2.2 (Or.inr rfl)

/-- Toggling off a skill that is not selected leaves the end-to-end draft as it
is. -/
theorem C10_toggle_off_frame_witness : handleSkillChange "CSS" false janeDoe = janeDoe :=
  (C10_toggle_off_frame janeDoe "CSS").2.2.2.2.mp (by decide)

end JobApp
